import Mathlib

/-!
Verification of the Swoosh signaling backend (socket.io server, `server.js` of
the analytics-enabled variant, plus `utils/analytics.js`).

The in-memory room registry (`roomUsers : Map<RoomID, Set<SocketID>>`,
`userRoomMap : Map<SocketID, RoomID>`) is embedded as functions
`String → Option (List String)` / `String → Option String`; a JS `Set` is a
duplicate-free list in insertion order (`setAdd` appends only when absent,
matching `Set.prototype.add`).  socket.io channel membership (`socket.join`,
`socket.leave`, the automatic leave-all after `disconnecting`) is tracked in a
separate field `ioRooms`, because the relay handlers emit through
`socket.to(roomId)` (channel membership minus the sender) rather than through
the registry.  Every event handler is translated into a pure state transition
returning the new state together with the list of `(recipient, message)`
deliveries it emits, in emission order.  The analytics module writing to
MongoDB is embedded separately further below.
-/

namespace Swoosh

/-- Pointwise update of a function-valued map, modelling `Map.set` /
`Map.delete` (delete = update to `none`). -/
def fupdate {α : Type} (f : String → α) (k : String) (v : α) : String → α :=
  fun x => if x = k then v else f x

@[simp] theorem fupdate_same {α : Type} (f : String → α) (k : String) (v : α) :
    fupdate f k v k = v := by
  simp [fupdate]

theorem fupdate_apply {α : Type} (f : String → α) (k : String) (v : α) (x : String) :
    fupdate f k v x = if x = k then v else f x := rfl

@[simp] theorem fupdate_ne {α : Type} (f : String → α) (k : String) (v : α) (x : String)
    (h : x ≠ k) : fupdate f k v x = f x := by
  simp [fupdate, h]

/-- `Set.prototype.add`: append the element if it is not already present. -/
def setAdd (l : List String) (x : String) : List String :=
  if x ∈ l then l else l ++ [x]

/-- `Set.prototype.delete`: remove the element. -/
def setRemove (l : List String) (x : String) : List String :=
  l.filter (fun y => y ≠ x)

theorem mem_setAdd {l : List String} {x y : String} :
    y ∈ setAdd l x ↔ y ∈ l ∨ y = x := by
  unfold setAdd
  split
  · constructor
    · exact Or.inl
    · rintro (h | rfl) <;> [exact h; assumption]
  · simp [List.mem_append]

theorem setAdd_nodup {l : List String} {x : String} (h : l.Nodup) :
    (setAdd l x).Nodup := by
  unfold setAdd
  split
  · exact h
  · rename_i hx
    refine List.Nodup.append h (List.nodup_singleton x) ?_
    intro a ha hb
    simp at hb
    subst hb
    exact hx ha

theorem mem_setRemove {l : List String} {x y : String} :
    y ∈ setRemove l x ↔ y ∈ l ∧ y ≠ x := by
  simp [setRemove]

theorem setRemove_nodup {l : List String} {x : String} (h : l.Nodup) :
    (setRemove l x).Nodup :=
  List.Nodup.filter _ h

theorem setRemove_of_not_mem {l : List String} {x : String} (h : x ∉ l) :
    setRemove l x = l := by
  unfold setRemove
  rw [List.filter_eq_self]
  intro a ha
  simp only [decide_eq_true_eq]
  rintro rfl
  exact h ha

theorem setRemove_length_lt {l : List String} {x : String} (h : x ∈ l) :
    (setRemove l x).length < l.length := by
  apply List.length_filter_lt_length_iff_exists.mpr
  exact ⟨x, h, by simp⟩

/-- A duplicate-free list whose `setRemove x` is empty and which contains `x`
is exactly `[x]`. -/
theorem eq_singleton_of_setRemove_nil {l : List String} {x : String}
    (hnd : l.Nodup) (hx : x ∈ l) (h : setRemove l x = []) : l = [x] := by
  have hall : ∀ y ∈ l, y = x := by
    intro y hy
    by_contra hne
    have : y ∈ setRemove l x := mem_setRemove.mpr ⟨hy, hne⟩
    simp [h] at this
  cases l with
  | nil => cases hx
  | cons a t =>
    have ha : a = x := hall a (List.mem_cons_self a t)
    subst ha
    have hnt : a ∉ t := (List.nodup_cons.mp hnd).1
    have ht : t = [] := by
      cases t with
      | nil => rfl
      | cons b u =>
        have hb : b = a := hall b (List.mem_cons.mpr (Or.inr (List.mem_cons_self b u)))
        subst hb
        exact absurd (List.mem_cons_self b u) hnt
    simp [ht]

/-! ## Server state and messages -/

/-- The mutable server state: `roomUsers` and `userRoomMap` from the source,
plus the socket.io channel membership used by `socket.to`/`io.to`. -/
@[ext] structure ServerState where
  roomUsers : String → Option (List String)
  userRoomMap : String → Option String
  ioRooms : String → List String

def initState : ServerState :=
  ⟨fun _ => none, fun _ => none, fun _ => []⟩

/-- Current members of a room (empty when the room is not registered). -/
def membersOf (st : ServerState) (r : String) : List String :=
  (st.roomUsers r).getD []

def MAX_ROOM_CAPACITY : Nat := 2

/-- `getRoomOccupancy`: `roomUsers.get(roomId)?.size || 0`. -/
def getRoomOccupancy (st : ServerState) (r : String) : Nat :=
  (membersOf st r).length

/-- `isRoomFull`: `getRoomOccupancy(roomId) > MAX_ROOM_CAPACITY` — note the
strict `>` in the source. -/
def isRoomFull (st : ServerState) (r : String) : Bool :=
  decide (getRoomOccupancy st r > MAX_ROOM_CAPACITY)

/-- `roomExists`: `roomUsers.has(roomId)`. -/
def roomExists (st : ServerState) (r : String) : Bool :=
  (st.roomUsers r).isSome

inductive RelayKind where
  | offer
  | answer
  | iceCandidate
deriving DecidableEq

/-- Server→client messages, with the payload fields each emission carries. -/
inductive ServerMsg where
  | roomCreated (roomId : String) (occupancy capacity : Nat)
  | roomJoined (roomId : String) (occupancy capacity : Nat) (isFull : Bool)
  | userJoined (userId : String) (occupancy capacity : Nat) (isFull : Bool)
  | userLeft (userId : String) (occupancy capacity : Nat)
  | roomFullMsg (roomId : String) (occupancy : Nat) (capacity : Option Nat) (message : String)
  | roomDismissed (roomId reason : String)
  | roomLeft (roomId message : String)
  | errorMsg (code message : String)
  | relayMsg (kind : RelayKind) (payload : String)
deriving DecidableEq

/-- One delivery: recipient socket id and the message. -/
abbrev Delivery := String × ServerMsg

def roomNotFoundText : String := "Room ID not found or has been dismissed."

def roomFullRejectText (occ cap : Nat) : String :=
  "Room is full (" ++ toString occ ++ "/" ++ toString cap ++ " users). Cannot join."

def roomFullErrText (occ cap : Nat) : String :=
  "Room is full (" ++ toString occ ++ "/" ++ toString cap ++ " users)."

def roomFullNowText : String := "Room is now full. No more users can join."

def roomClosedText : String := "Room closed"

def roomLeftText : String := "Successfully left the room"

/-- `deleteRoom`: if the room is registered, broadcast `room-dismissed` to the
socket.io channel and delete the registry entry. -/
def deleteRoom (st : ServerState) (r : String) : ServerState × List Delivery :=
  if (st.roomUsers r).isSome then
    ({ st with roomUsers := fupdate st.roomUsers r none },
     (st.ioRooms r).map (fun u => (u, ServerMsg.roomDismissed r roomClosedText)))
  else (st, [])

/-- The `create-room` handler (room id supplied by `generateRoomId`). -/
def createRoom (st : ServerState) (s r : String) : ServerState × List Delivery :=
  let st1 : ServerState :=
    { roomUsers := fupdate st.roomUsers r (some [s])
      userRoomMap := fupdate st.userRoomMap s (some r)
      ioRooms := fupdate st.ioRooms r (setAdd (st.ioRooms r) s) }
  (st1, [(s, ServerMsg.roomCreated r 1 MAX_ROOM_CAPACITY)])

/-- The `join-room` handler. -/
def joinRoom (st : ServerState) (s r : String) : ServerState × List Delivery :=
  if roomExists st r then
    let cur := getRoomOccupancy st r
    if isRoomFull st r then
      (st, [(s, ServerMsg.roomFullMsg r cur (some MAX_ROOM_CAPACITY)
                 (roomFullRejectText cur MAX_ROOM_CAPACITY)),
            (s, ServerMsg.errorMsg "ROOM_FULL" (roomFullErrText cur MAX_ROOM_CAPACITY))])
    else
      let st1 : ServerState :=
        { roomUsers := fupdate st.roomUsers r (some (setAdd (membersOf st r) s))
          userRoomMap := fupdate st.userRoomMap s (some r)
          ioRooms := fupdate st.ioRooms r (setAdd (st.ioRooms r) s) }
      let occ := getRoomOccupancy st1 r
      let fl := isRoomFull st1 r
      let others := (st1.ioRooms r).filter (fun x => x ≠ s)
      (st1,
        others.map (fun u => (u, ServerMsg.userJoined s occ MAX_ROOM_CAPACITY fl))
          ++ [(s, ServerMsg.roomJoined r occ MAX_ROOM_CAPACITY fl)]
          ++ (if fl then
                (st1.ioRooms r).map (fun u => (u, ServerMsg.roomFullMsg r occ none roomFullNowText))
              else []))
  else
    (st, [(s, ServerMsg.errorMsg "ROOM_NOT_FOUND" roomNotFoundText)])

/-- The `leave-room` handler. -/
def leaveRoom (st : ServerState) (s : String) : ServerState × List Delivery :=
  match st.userRoomMap s with
  | none => (st, [])
  | some r =>
    if (st.roomUsers r).isSome then
      let ms := setRemove (membersOf st r) s
      let st1 : ServerState :=
        { roomUsers := fupdate st.roomUsers r (some ms)
          userRoomMap := fupdate st.userRoomMap s none
          ioRooms := fupdate st.ioRooms r (setRemove (st.ioRooms r) s) }
      if ms.length = 0 then
        let p := deleteRoom st1 r
        (p.1, p.2 ++ [(s, ServerMsg.roomLeft r roomLeftText)])
      else
        let others := (st1.ioRooms r).filter (fun x => x ≠ s)
        (st1,
          others.map (fun u => (u, ServerMsg.userLeft s ms.length MAX_ROOM_CAPACITY))
            ++ [(s, ServerMsg.roomLeft r roomLeftText)])
    else (st, [])

/-- The `disconnecting` handler: like `leave-room` but without `socket.leave`
(the socket is removed from its channels only after the event), without the
`room-left` acknowledgment, and notifying the remaining members only. -/
def disconnecting (st : ServerState) (s : String) : ServerState × List Delivery :=
  match st.userRoomMap s with
  | none => (st, [])
  | some r =>
    if (st.roomUsers r).isSome then
      let ms := setRemove (membersOf st r) s
      let st1 : ServerState :=
        { roomUsers := fupdate st.roomUsers r (some ms)
          userRoomMap := fupdate st.userRoomMap s none
          ioRooms := st.ioRooms }
      if ms.length = 0 then
        deleteRoom st1 r
      else
        let others := (st1.ioRooms r).filter (fun x => x ≠ s)
        (st1, others.map (fun u => (u, ServerMsg.userLeft s ms.length MAX_ROOM_CAPACITY)))
    else (st, [])

/-- The `disconnect` handler: removes any remaining reverse-map entry and the
socket's membership entry; emits nothing. -/
def disconnectCleanup (st : ServerState) (s : String) : ServerState :=
  match st.userRoomMap s with
  | none => st
  | some r =>
    let st1 := { st with userRoomMap := fupdate st.userRoomMap s none }
    match st.roomUsers r with
    | some m => { st1 with roomUsers := fupdate st1.roomUsers r (some (setRemove m s)) }
    | none => st1

/-- After `disconnecting` and `disconnect`, socket.io removes the socket from
every channel. -/
def ioRemoveAll (io : String → List String) (s : String) : String → List String :=
  fun r => setRemove (io r) s

/-- A full transport teardown: socket.io fires `disconnecting`, then
`disconnect`, then removes the socket from all channels. -/
def disconnectOp (st : ServerState) (s : String) : ServerState × List Delivery :=
  let p := disconnecting st s
  let st2 := disconnectCleanup p.1 s
  ({ st2 with ioRooms := ioRemoveAll st2.ioRooms s }, p.2)

/-- The `offer`/`answer`/`ice-candidate` handlers all forward the payload via
`socket.to(roomId)`: every socket in the channel except the sender. No
membership check is performed on the sender. -/
def relayEvents (st : ServerState) (s r : String) (k : RelayKind) (p : String) :
    List Delivery :=
  ((st.ioRooms r).filter (fun x => x ≠ s)).map (fun u => (u, ServerMsg.relayMsg k p))

/-- Client operations (the room id of `create` stands for the freshly
generated `generateRoomId()` result). -/
inductive Op where
  | create (s r : String)
  | join (s r : String)
  | leave (s : String)
  | disconnect (s : String)
  | relay (s r : String) (k : RelayKind) (p : String)

/-- One serialized operation: registry transition plus emitted deliveries. -/
def stepP (st : ServerState) : Op → ServerState × List Delivery
  | Op.create s r => createRoom st s r
  | Op.join s r => joinRoom st s r
  | Op.leave s => leaveRoom st s
  | Op.disconnect s => disconnectOp st s
  | Op.relay s r k p => (st, relayEvents st s r k p)

/-! ## Reachability and the registry invariant

Operations are serialized (the socket.io event loop runs one handler body at
a time between `await`s, and the awaited analytics calls never touch the
registry).  `Reachable` admits every interleaving of operations by
well-behaved clients: a `create` uses the freshly generated (hence unused)
room id, and a connection only creates/joins a room while it is in none —
the source spec flags join-while-joined as undefined last-wins behavior. -/

inductive Reachable : ServerState → Prop where
  | init : Reachable initState
  | create {st : ServerState} (s r : String) : Reachable st →
      st.roomUsers r = none → st.userRoomMap s = none →
      Reachable (stepP st (Op.create s r)).1
  | join {st : ServerState} (s r : String) : Reachable st →
      st.userRoomMap s = none → Reachable (stepP st (Op.join s r)).1
  | leave {st : ServerState} (s : String) : Reachable st →
      Reachable (stepP st (Op.leave s)).1
  | disconnect {st : ServerState} (s : String) : Reachable st →
      Reachable (stepP st (Op.disconnect s)).1
  | relay {st : ServerState} (s r : String) (k : RelayKind) (p : String) :
      Reachable st → Reachable (stepP st (Op.relay s r k p)).1

/-- The registry invariant: the reverse map matches room membership, the
socket.io channels mirror the registry, registered rooms are nonempty, and
member sets hold no duplicates. -/
structure Inv (st : ServerState) : Prop where
  mapMem : ∀ s r, st.userRoomMap s = some r → s ∈ membersOf st r
  memMap : ∀ r s, s ∈ membersOf st r → st.userRoomMap s = some r
  ioSync : ∀ r, st.ioRooms r = membersOf st r
  nonEmpty : ∀ r, (st.roomUsers r).isSome → membersOf st r ≠ []
  nodup : ∀ r, (membersOf st r).Nodup

theorem inv_init : Inv initState := by
  constructor <;> intro r <;> simp [initState, membersOf]

theorem membersOf_some {st : ServerState} {r : String} {m : List String}
    (h : st.roomUsers r = some m) : membersOf st r = m := by
  simp [membersOf, h]

theorem roomUsers_isSome_of_mapMem {st : ServerState} (hInv : Inv st)
    {s r : String} (h : st.userRoomMap s = some r) : (st.roomUsers r).isSome := by
  have hs := hInv.mapMem s r h
  cases hru : st.roomUsers r with
  | none => rw [membersOf, hru] at hs; simp at hs
  | some m => simp

/-- A socket with no reverse-map entry is in no member set. -/
theorem not_mem_of_map_none {st : ServerState} (hInv : Inv st) {s : String}
    (h : st.userRoomMap s = none) : ∀ r, s ∉ membersOf st r := by
  intro r hmem
  have := hInv.memMap r s hmem
  rw [h] at this
  cases this

/-- A mapped socket is a member only of its mapped room. -/
theorem mem_unique_room {st : ServerState} (hInv : Inv st) {s r r' : String}
    (h : st.userRoomMap s = some r) (h' : s ∈ membersOf st r') : r' = r := by
  have := hInv.memMap r' s h'
  rw [h] at this
  exact (Option.some_injective _ this).symm

theorem inv_create {st : ServerState} {s r : String} (hInv : Inv st)
    (hfresh : st.roomUsers r = none) (hmap : st.userRoomMap s = none) :
    Inv (createRoom st s r).1 := by
  have hioEmpty : st.ioRooms r = [] := by
    rw [hInv.ioSync, membersOf, hfresh]
    rfl
  have hnotToR : ∀ x r', st.userRoomMap x = some r' → r' ≠ r := by
    intro x r' hx hrr
    subst hrr
    have := hInv.mapMem x r' hx
    rw [membersOf, hfresh] at this
    simp at this
  refine ⟨?_, ?_, ?_, ?_, ?_⟩
  · intro x r' hx
    by_cases hxs : x = s
    · subst hxs
      rw [createRoom] at hx ⊢
      simp only [fupdate_same] at hx
      cases hx
      simp [membersOf]
    · rw [createRoom] at hx ⊢
      simp only at hx
      rw [fupdate_ne _ _ _ _ hxs] at hx
      have hne := hnotToR x r' hx
      simp only [membersOf]
      rw [fupdate_ne _ _ _ _ hne]
      exact hInv.mapMem x r' hx
  · intro r' x hx
    rw [createRoom] at hx ⊢
    simp only [membersOf] at hx
    by_cases hr : r' = r
    · subst hr
      rw [fupdate_same] at hx
      simp at hx
      subst hx
      simp
    · rw [fupdate_ne _ _ _ _ hr] at hx
      have hx' := hInv.memMap r' x hx
      have hxs : x ≠ s := by
        rintro rfl
        rw [hmap] at hx'
        cases hx'
      simp only
      rw [fupdate_ne _ _ _ _ hxs]
      exact hx'
  · intro r'
    rw [createRoom]
    simp only [membersOf]
    by_cases hr : r' = r
    · subst hr
      rw [fupdate_same, fupdate_same, hioEmpty]
      simp [setAdd]
    · rw [fupdate_ne _ _ _ _ hr, fupdate_ne _ _ _ _ hr]
      exact hInv.ioSync r'
  · intro r'
    rw [createRoom]
    simp only [membersOf]
    by_cases hr : r' = r
    · subst hr
      rw [fupdate_same]
      simp
    · rw [fupdate_ne _ _ _ _ hr]
      exact hInv.nonEmpty r'
  · intro r'
    rw [createRoom]
    simp only [membersOf]
    by_cases hr : r' = r
    · subst hr
      rw [fupdate_same]
      simp
    · rw [fupdate_ne _ _ _ _ hr]
      exact hInv.nodup r'

theorem joinRoom_of_not_exists {st : ServerState} {s r : String}
    (hex : roomExists st r = false) :
    joinRoom st s r = (st, [(s, ServerMsg.errorMsg "ROOM_NOT_FOUND" roomNotFoundText)]) := by
  simp [joinRoom, hex]

theorem joinRoom_of_full {st : ServerState} {s r : String}
    (hex : roomExists st r = true) (hfull : isRoomFull st r = true) :
    joinRoom st s r =
      (st, [(s, ServerMsg.roomFullMsg r (getRoomOccupancy st r) (some MAX_ROOM_CAPACITY)
                 (roomFullRejectText (getRoomOccupancy st r) MAX_ROOM_CAPACITY)),
            (s, ServerMsg.errorMsg "ROOM_FULL"
                 (roomFullErrText (getRoomOccupancy st r) MAX_ROOM_CAPACITY))]) := by
  simp [joinRoom, hex, hfull]

/-- The state built by a successful join. -/
def joinSt (st : ServerState) (s r : String) : ServerState :=
  ⟨fupdate st.roomUsers r (some (setAdd (membersOf st r) s)),
   fupdate st.userRoomMap s (some r),
   fupdate st.ioRooms r (setAdd (st.ioRooms r) s)⟩

theorem joinRoom_success_fst {st : ServerState} {s r : String}
    (hex : roomExists st r = true) (hfull : isRoomFull st r = false) :
    (joinRoom st s r).1 = joinSt st s r := by
  simp [joinRoom, hex, hfull, joinSt]

theorem inv_join {st : ServerState} {s r : String} (hInv : Inv st)
    (hmap : st.userRoomMap s = none) : Inv (joinRoom st s r).1 := by
  cases hex : roomExists st r with
  | false => rw [joinRoom_of_not_exists hex]; exact hInv
  | true =>
    cases hfull : isRoomFull st r with
    | true => rw [joinRoom_of_full hex hfull]; exact hInv
    | false =>
      rw [joinRoom_success_fst hex hfull]
      have hsm : ∀ r', s ∉ membersOf st r' := not_mem_of_map_none hInv hmap
      refine ⟨?_, ?_, ?_, ?_, ?_⟩
      · intro x r' hx
        by_cases hxs : x = s
        · subst hxs
          rw [joinSt] at hx ⊢
          simp only [fupdate_same] at hx
          cases hx
          simp only [membersOf, fupdate_same]
          simp [mem_setAdd]
        · rw [joinSt] at hx ⊢
          simp only at hx
          rw [fupdate_ne _ _ _ _ hxs] at hx
          have hx' := hInv.mapMem x r' hx
          simp only [membersOf]
          by_cases hr : r' = r
          · subst hr
            rw [fupdate_same]
            simp only [Option.getD_some]
            exact mem_setAdd.mpr (Or.inl hx')
          · rw [fupdate_ne _ _ _ _ hr]
            exact hx'
      · intro r' x hx
        rw [joinSt] at hx ⊢
        simp only [membersOf] at hx
        by_cases hr : r' = r
        · subst hr
          rw [fupdate_same] at hx
          simp only [Option.getD_some] at hx
          rcases mem_setAdd.mp hx with hx2 | hx2
          · have hx' := hInv.memMap r' x hx2
            have hxs : x ≠ s := fun hse => hsm r' (hse ▸ hx2)
            simp only
            rw [fupdate_ne _ _ _ _ hxs]
            exact hx'
          · subst hx2
            simp only
            rw [fupdate_same]
        · rw [fupdate_ne _ _ _ _ hr] at hx
          have hx' := hInv.memMap r' x hx
          have hxs : x ≠ s := fun hse => hsm r' (hse ▸ hx)
          simp only
          rw [fupdate_ne _ _ _ _ hxs]
          exact hx'
      · intro r'
        rw [joinSt]
        simp only [membersOf]
        by_cases hr : r' = r
        · subst hr
          rw [fupdate_same, fupdate_same, hInv.ioSync r']
          simp [membersOf]
        · rw [fupdate_ne _ _ _ _ hr, fupdate_ne _ _ _ _ hr]
          exact hInv.ioSync r'
      · intro r'
        rw [joinSt]
        simp only [membersOf]
        by_cases hr : r' = r
        · subst hr
          rw [fupdate_same]
          simp only [Option.isSome_some, Option.getD_some, forall_const]
          exact List.ne_nil_of_mem (mem_setAdd.mpr (Or.inr rfl))
        · rw [fupdate_ne _ _ _ _ hr]
          exact hInv.nonEmpty r'
      · intro r'
        rw [joinSt]
        simp only [membersOf]
        by_cases hr : r' = r
        · subst hr
          rw [fupdate_same]
          simp only [Option.getD_some]
          exact setAdd_nodup (hInv.nodup r')
        · rw [fupdate_ne _ _ _ _ hr]
          exact hInv.nodup r'

theorem fupdate_fupdate_same {α : Type} (f : String → α) (k : String) (v w : α) :
    fupdate (fupdate f k v) k w = fupdate f k w := by
  funext x
  by_cases h : x = k <;> simp [fupdate, h]

theorem leaveRoom_none {st : ServerState} {s : String}
    (hm : st.userRoomMap s = none) : leaveRoom st s = (st, []) := by
  simp [leaveRoom, hm]

theorem leaveRoom_stale {st : ServerState} {s r : String}
    (hm : st.userRoomMap s = some r) (hru : st.roomUsers r = none) :
    leaveRoom st s = (st, []) := by
  simp [leaveRoom, hm, hru]

/-- The state after a leave (or disconnect) that empties the room. -/
def leaveStDel (st : ServerState) (s r : String) : ServerState :=
  ⟨fupdate st.roomUsers r none, fupdate st.userRoomMap s none,
   fupdate st.ioRooms r (setRemove (st.ioRooms r) s)⟩

/-- The state after a leave that does not empty the room. -/
def leaveStKeep (st : ServerState) (s r : String) : ServerState :=
  ⟨fupdate st.roomUsers r (some (setRemove (membersOf st r) s)),
   fupdate st.userRoomMap s none,
   fupdate st.ioRooms r (setRemove (st.ioRooms r) s)⟩

theorem leaveRoom_empty {st : ServerState} {s r : String} {m : List String}
    (hm : st.userRoomMap s = some r) (hru : st.roomUsers r = some m)
    (hms : setRemove m s = []) :
    leaveRoom st s =
      (leaveStDel st s r,
       (setRemove (st.ioRooms r) s).map
           (fun u => (u, ServerMsg.roomDismissed r roomClosedText))
         ++ [(s, ServerMsg.roomLeft r roomLeftText)]) := by
  simp only [leaveRoom, hm, hru, membersOf, Option.getD_some, Option.isSome_some, if_true,
    hms, List.length_nil, if_pos rfl, deleteRoom, fupdate_same, leaveStDel]
  rw [fupdate_fupdate_same]

theorem leaveRoom_keep {st : ServerState} {s r : String} {m : List String}
    (hm : st.userRoomMap s = some r) (hru : st.roomUsers r = some m)
    (hms : setRemove m s ≠ []) :
    leaveRoom st s =
      (leaveStKeep st s r,
       ((setRemove (st.ioRooms r) s).filter (fun x => x ≠ s)).map
           (fun u => (u, ServerMsg.userLeft s (setRemove m s).length MAX_ROOM_CAPACITY))
         ++ [(s, ServerMsg.roomLeft r roomLeftText)]) := by
  have hlen : ¬ (setRemove m s).length = 0 := by
    simpa [List.length_eq_zero] using hms
  simp [leaveRoom, hm, hru, membersOf, hlen, leaveStKeep]

theorem disconnecting_none {st : ServerState} {s : String}
    (hm : st.userRoomMap s = none) : disconnecting st s = (st, []) := by
  simp [disconnecting, hm]

/-- The state after a `disconnecting` that empties the room (channel
membership is untouched until the automatic leave-all). -/
def discStDel (st : ServerState) (s r : String) : ServerState :=
  ⟨fupdate st.roomUsers r none, fupdate st.userRoomMap s none, st.ioRooms⟩

/-- The state after a `disconnecting` that does not empty the room. -/
def discStKeep (st : ServerState) (s r : String) : ServerState :=
  ⟨fupdate st.roomUsers r (some (setRemove (membersOf st r) s)),
   fupdate st.userRoomMap s none, st.ioRooms⟩

theorem disconnecting_empty {st : ServerState} {s r : String} {m : List String}
    (hm : st.userRoomMap s = some r) (hru : st.roomUsers r = some m)
    (hms : setRemove m s = []) :
    disconnecting st s =
      (discStDel st s r,
       (st.ioRooms r).map (fun u => (u, ServerMsg.roomDismissed r roomClosedText))) := by
  simp only [disconnecting, hm, hru, membersOf, Option.getD_some, Option.isSome_some, if_true,
    hms, List.length_nil, if_pos rfl, deleteRoom, fupdate_same, discStDel]
  rw [fupdate_fupdate_same]

theorem disconnecting_keep {st : ServerState} {s r : String} {m : List String}
    (hm : st.userRoomMap s = some r) (hru : st.roomUsers r = some m)
    (hms : setRemove m s ≠ []) :
    disconnecting st s =
      (discStKeep st s r,
       ((st.ioRooms r).filter (fun x => x ≠ s)).map
           (fun u => (u, ServerMsg.userLeft s (setRemove m s).length MAX_ROOM_CAPACITY))) := by
  have hlen : ¬ (setRemove m s).length = 0 := by
    simpa [List.length_eq_zero] using hms
  simp [disconnecting, hm, hru, membersOf, hlen, discStKeep]

theorem disconnectOp_none {st : ServerState} {s : String}
    (hm : st.userRoomMap s = none) :
    disconnectOp st s = ({ st with ioRooms := ioRemoveAll st.ioRooms s }, []) := by
  simp [disconnectOp, disconnecting_none hm, disconnectCleanup, hm]

theorem disconnectOp_empty {st : ServerState} {s r : String} {m : List String}
    (hm : st.userRoomMap s = some r) (hru : st.roomUsers r = some m)
    (hms : setRemove m s = []) :
    disconnectOp st s =
      (⟨fupdate st.roomUsers r none, fupdate st.userRoomMap s none,
        ioRemoveAll st.ioRooms s⟩,
       (st.ioRooms r).map (fun u => (u, ServerMsg.roomDismissed r roomClosedText))) := by
  simp only [disconnectOp, disconnecting_empty hm hru hms, discStDel, disconnectCleanup,
    fupdate_same]

theorem disconnectOp_keep {st : ServerState} {s r : String} {m : List String}
    (hm : st.userRoomMap s = some r) (hru : st.roomUsers r = some m)
    (hms : setRemove m s ≠ []) :
    disconnectOp st s =
      (⟨fupdate st.roomUsers r (some (setRemove (membersOf st r) s)),
        fupdate st.userRoomMap s none, ioRemoveAll st.ioRooms s⟩,
       ((st.ioRooms r).filter (fun x => x ≠ s)).map
           (fun u => (u, ServerMsg.userLeft s (setRemove m s).length MAX_ROOM_CAPACITY))) := by
  simp only [disconnectOp, disconnecting_keep hm hru hms, discStKeep, disconnectCleanup,
    fupdate_same]

theorem inv_leave {st : ServerState} {s : String} (hInv : Inv st) :
    Inv (leaveRoom st s).1 := by
  cases hm : st.userRoomMap s with
  | none => rw [leaveRoom_none hm]; exact hInv
  | some r =>
    cases hru : st.roomUsers r with
    | none => rw [leaveRoom_stale hm hru]; exact hInv
    | some m =>
      have hsin : s ∈ m := by
        have := hInv.mapMem s r hm
        rwa [membersOf_some hru] at this
      have hnd : m.Nodup := by
        have := hInv.nodup r
        rwa [membersOf_some hru] at this
      have honly : ∀ r', s ∈ membersOf st r' → r' = r := fun r' h =>
        mem_unique_room hInv hm h
      by_cases hms : setRemove m s = []
      · rw [leaveRoom_empty hm hru hms]
        have hmsing : m = [s] := eq_singleton_of_setRemove_nil hnd hsin hms
        refine ⟨?_, ?_, ?_, ?_, ?_⟩
        · intro x r2 hx
          rw [leaveStDel] at hx ⊢
          simp only at hx
          have hxs : x ≠ s := by
            rintro rfl
            rw [fupdate_same] at hx
            cases hx
          rw [fupdate_ne _ _ _ _ hxs] at hx
          have hr2 : r2 ≠ r := by
            rintro rfl
            have := hInv.mapMem x r2 hx
            rw [membersOf_some hru, hmsing] at this
            simp at this
            exact hxs this
          simp only [membersOf]
          rw [fupdate_ne _ _ _ _ hr2]
          exact hInv.mapMem x r2 hx
        · intro r2 x hx
          rw [leaveStDel] at hx ⊢
          simp only [membersOf] at hx
          by_cases hr2 : r2 = r
          · subst hr2
            rw [fupdate_same] at hx
            simp at hx
          · rw [fupdate_ne _ _ _ _ hr2] at hx
            have hx' := hInv.memMap r2 x hx
            have hxs : x ≠ s := by
              rintro rfl
              exact hr2 (honly r2 hx)
            simp only
            rw [fupdate_ne _ _ _ _ hxs]
            exact hx'
        · intro r2
          rw [leaveStDel]
          simp only [membersOf]
          by_cases hr2 : r2 = r
          · subst hr2
            rw [fupdate_same, fupdate_same, hInv.ioSync r2, membersOf_some hru, hms]
            rfl
          · rw [fupdate_ne _ _ _ _ hr2, fupdate_ne _ _ _ _ hr2]
            exact hInv.ioSync r2
        · intro r2
          rw [leaveStDel]
          simp only [membersOf]
          by_cases hr2 : r2 = r
          · subst hr2
            rw [fupdate_same]
            simp
          · rw [fupdate_ne _ _ _ _ hr2]
            exact hInv.nonEmpty r2
        · intro r2
          rw [leaveStDel]
          simp only [membersOf]
          by_cases hr2 : r2 = r
          · subst hr2
            rw [fupdate_same]
            simp
          · rw [fupdate_ne _ _ _ _ hr2]
            exact hInv.nodup r2
      · rw [leaveRoom_keep hm hru hms]
        refine ⟨?_, ?_, ?_, ?_, ?_⟩
        · intro x r2 hx
          rw [leaveStKeep] at hx ⊢
          simp only at hx
          have hxs : x ≠ s := by
            rintro rfl
            rw [fupdate_same] at hx
            cases hx
          rw [fupdate_ne _ _ _ _ hxs] at hx
          have hx' := hInv.mapMem x r2 hx
          simp only [membersOf]
          by_cases hr2 : r2 = r
          · subst hr2
            rw [fupdate_same]
            simp only [Option.getD_some]
            rw [membersOf_some hru] at hx'
            rw [hru]
            simp only [Option.getD_some]
            exact mem_setRemove.mpr ⟨hx', hxs⟩
          · rw [fupdate_ne _ _ _ _ hr2]
            exact hx'
        · intro r2 x hx
          rw [leaveStKeep] at hx ⊢
          simp only [membersOf] at hx
          by_cases hr2 : r2 = r
          · subst hr2
            rw [fupdate_same] at hx
            simp only [Option.getD_some] at hx
            have hx2 := mem_setRemove.mp hx
            have hx' := hInv.memMap r2 x hx2.1
            simp only
            rw [fupdate_ne _ _ _ _ hx2.2]
            exact hx'
          · rw [fupdate_ne _ _ _ _ hr2] at hx
            have hx' := hInv.memMap r2 x hx
            have hxs : x ≠ s := by
              rintro rfl
              exact hr2 (honly r2 hx)
            simp only
            rw [fupdate_ne _ _ _ _ hxs]
            exact hx'
        · intro r2
          rw [leaveStKeep]
          simp only [membersOf]
          by_cases hr2 : r2 = r
          · subst hr2
            rw [fupdate_same, fupdate_same, hInv.ioSync r2]
            rfl
          · rw [fupdate_ne _ _ _ _ hr2, fupdate_ne _ _ _ _ hr2]
            exact hInv.ioSync r2
        · intro r2
          rw [leaveStKeep]
          simp only [membersOf]
          by_cases hr2 : r2 = r
          · subst hr2
            rw [fupdate_same]
            simp only [Option.isSome_some, Option.getD_some, forall_const]
            rw [hru]
            simp only [Option.getD_some]
            exact hms
          · rw [fupdate_ne _ _ _ _ hr2]
            exact hInv.nonEmpty r2
        · intro r2
          rw [leaveStKeep]
          simp only [membersOf]
          by_cases hr2 : r2 = r
          · subst hr2
            rw [fupdate_same]
            simp only [Option.getD_some]
            exact setRemove_nodup (hInv.nodup r2)
          · rw [fupdate_ne _ _ _ _ hr2]
            exact hInv.nodup r2

theorem ioRemoveAll_apply (io : String → List String) (s r : String) :
    ioRemoveAll io s r = setRemove (io r) s := rfl

theorem inv_disconnect {st : ServerState} {s : String} (hInv : Inv st) :
    Inv (disconnectOp st s).1 := by
  cases hm : st.userRoomMap s with
  | none =>
    rw [disconnectOp_none hm]
    have hsm := not_mem_of_map_none hInv hm
    refine ⟨hInv.mapMem, hInv.memMap, ?_, hInv.nonEmpty, hInv.nodup⟩
    intro r2
    simp only [ioRemoveAll_apply]
    rw [hInv.ioSync r2]
    exact setRemove_of_not_mem (hsm r2)
  | some r =>
    cases hru : st.roomUsers r with
    | none =>
      exfalso
      have := hInv.mapMem s r hm
      rw [membersOf, hru] at this
      simp at this
    | some m =>
      have hsin : s ∈ m := by
        have := hInv.mapMem s r hm
        rwa [membersOf_some hru] at this
      have hnd : m.Nodup := by
        have := hInv.nodup r
        rwa [membersOf_some hru] at this
      have honly : ∀ r', s ∈ membersOf st r' → r' = r := fun r' h =>
        mem_unique_room hInv hm h
      have hnotin : ∀ r', r' ≠ r → s ∉ membersOf st r' := by
        intro r' hne hmem
        exact hne (honly r' hmem)
      by_cases hms : setRemove m s = []
      · rw [disconnectOp_empty hm hru hms]
        have hmsing : m = [s] := eq_singleton_of_setRemove_nil hnd hsin hms
        refine ⟨?_, ?_, ?_, ?_, ?_⟩
        · intro x r2 hx
          simp only at hx
          have hxs : x ≠ s := by
            rintro rfl
            rw [fupdate_same] at hx
            cases hx
          rw [fupdate_ne _ _ _ _ hxs] at hx
          have hr2 : r2 ≠ r := by
            rintro rfl
            have := hInv.mapMem x r2 hx
            rw [membersOf_some hru, hmsing] at this
            simp at this
            exact hxs this
          simp only [membersOf]
          rw [fupdate_ne _ _ _ _ hr2]
          exact hInv.mapMem x r2 hx
        · intro r2 x hx
          simp only [membersOf] at hx
          by_cases hr2 : r2 = r
          · subst hr2
            rw [fupdate_same] at hx
            simp at hx
          · rw [fupdate_ne _ _ _ _ hr2] at hx
            have hx' := hInv.memMap r2 x hx
            have hxs : x ≠ s := by
              rintro rfl
              exact hr2 (honly r2 hx)
            simp only
            rw [fupdate_ne _ _ _ _ hxs]
            exact hx'
        · intro r2
          simp only [membersOf, ioRemoveAll_apply]
          by_cases hr2 : r2 = r
          · subst hr2
            rw [fupdate_same, hInv.ioSync r2, membersOf_some hru, hms]
            rfl
          · rw [fupdate_ne _ _ _ _ hr2, hInv.ioSync r2]
            exact setRemove_of_not_mem (hnotin r2 hr2)
        · intro r2
          simp only [membersOf]
          by_cases hr2 : r2 = r
          · subst hr2
            rw [fupdate_same]
            simp
          · rw [fupdate_ne _ _ _ _ hr2]
            exact hInv.nonEmpty r2
        · intro r2
          simp only [membersOf]
          by_cases hr2 : r2 = r
          · subst hr2
            rw [fupdate_same]
            simp
          · rw [fupdate_ne _ _ _ _ hr2]
            exact hInv.nodup r2
      · rw [disconnectOp_keep hm hru hms]
        refine ⟨?_, ?_, ?_, ?_, ?_⟩
        · intro x r2 hx
          simp only at hx
          have hxs : x ≠ s := by
            rintro rfl
            rw [fupdate_same] at hx
            cases hx
          rw [fupdate_ne _ _ _ _ hxs] at hx
          have hx' := hInv.mapMem x r2 hx
          simp only [membersOf]
          by_cases hr2 : r2 = r
          · subst hr2
            rw [fupdate_same]
            simp only [Option.getD_some]
            exact mem_setRemove.mpr ⟨hx', hxs⟩
          · rw [fupdate_ne _ _ _ _ hr2]
            exact hx'
        · intro r2 x hx
          simp only [membersOf] at hx
          by_cases hr2 : r2 = r
          · subst hr2
            rw [fupdate_same] at hx
            simp only [Option.getD_some] at hx
            have hx2 := mem_setRemove.mp hx
            have hx' := hInv.memMap r2 x hx2.1
            simp only
            rw [fupdate_ne _ _ _ _ hx2.2]
            exact hx'
          · rw [fupdate_ne _ _ _ _ hr2] at hx
            have hx' := hInv.memMap r2 x hx
            have hxs : x ≠ s := by
              rintro rfl
              exact hr2 (honly r2 hx)
            simp only
            rw [fupdate_ne _ _ _ _ hxs]
            exact hx'
        · intro r2
          simp only [membersOf, ioRemoveAll_apply]
          by_cases hr2 : r2 = r
          · subst hr2
            rw [fupdate_same, hInv.ioSync r2]
            rfl
          · rw [fupdate_ne _ _ _ _ hr2, hInv.ioSync r2]
            exact setRemove_of_not_mem (hnotin r2 hr2)
        · intro r2
          simp only [membersOf]
          by_cases hr2 : r2 = r
          · subst hr2
            rw [fupdate_same]
            simp only [Option.isSome_some, Option.getD_some, forall_const]
            rw [hru]
            simp only [Option.getD_some]
            exact hms
          · rw [fupdate_ne _ _ _ _ hr2]
            exact hInv.nonEmpty r2
        · intro r2
          simp only [membersOf]
          by_cases hr2 : r2 = r
          · subst hr2
            rw [fupdate_same]
            simp only [Option.getD_some]
            exact setRemove_nodup (hInv.nodup r2)
          · rw [fupdate_ne _ _ _ _ hr2]
            exact hInv.nodup r2

theorem inv_step {st : ServerState} (hInv : Inv st) (op : Op)
    (hcreate : ∀ s r, op = Op.create s r →
      st.roomUsers r = none ∧ st.userRoomMap s = none)
    (hjoin : ∀ s r, op = Op.join s r → st.userRoomMap s = none) :
    Inv (stepP st op).1 := by
  cases op with
  | create s r =>
    obtain ⟨h1, h2⟩ := hcreate s r rfl
    exact inv_create hInv h1 h2
  | join s r => exact inv_join hInv (hjoin s r rfl)
  | leave s => exact inv_leave hInv
  | disconnect s => exact inv_disconnect hInv
  | relay s r k p => exact hInv

/-- Every reachable registry state satisfies the invariant. -/
theorem reachable_inv {st : ServerState} (h : Reachable st) : Inv st := by
  induction h with
  | init => exact inv_init
  | create s r _ hfresh hmap ih => exact inv_create ih hfresh hmap
  | join s r _ hmap ih => exact inv_join ih hmap
  | leave s _ ih => exact inv_leave ih
  | disconnect s _ ih => exact inv_disconnect ih
  | relay s r k p _ ih => exact ih

/-! ## The analytics module (`utils/analytics.js`)

The MongoDB collections are embedded as an `ADB` record; time is a `Nat`
counted in minutes, so a calendar day spans 1440 ticks (`setHours(0,0,0,0)`
is truncation to a multiple of 1440, `getHours()` is `t % 1440 / 60`).
Each store primitive may fail (`PersistenceUnavailable`); an `Oracle` of
booleans chooses which primitives fail during one entry-point call.  Every
exported function wraps its body in `try/catch`, so each is embedded as a
total function on `ADB`: a thrown store error aborts the rest of the body
and keeps whatever the earlier primitives already wrote. -/

inductive REType where
  | created
  | joined
  | user_left
  | closed
deriving DecidableEq

structure RoomEventRec where
  roomId : String
  eventType : REType
  userId : String
  ts : Nat
  userCount : Nat
deriving DecidableEq

/-- The top-level `DailyStats` counters touched by the code. -/
inductive DailyField where
  | roomsCreated
  | roomsCompleted
  | totalConnections
  | transfersCompleted
  | totalBytesTransferred
deriving DecidableEq

/-- The per-hour fields of an `hourlyBreakdown` bucket. -/
inductive HourField where
  | connections
  | roomsCreated
  | transfers
deriving DecidableEq

structure HourBucket where
  hour : Nat
  connections : Nat
  roomsCreated : Nat
  transfers : Nat
deriving DecidableEq

structure DailyDoc where
  roomsCreated : Nat
  roomsCompleted : Nat
  totalConnections : Nat
  transfersCompleted : Nat
  totalBytesTransferred : Nat
  hourlyBreakdown : List HourBucket
deriving DecidableEq

def emptyDailyDoc : DailyDoc := ⟨0, 0, 0, 0, 0, []⟩

structure ErrorRec where
  errorType : String
  errorMessage : String
  roomId : String
  userId : String
deriving DecidableEq

inductive SessStatus where
  | initiated
  | transferring
  | paused
  | completed
  | failed
  | cancelled
deriving DecidableEq

structure SessionRec where
  roomId : String
  sessionId : String
  status : SessStatus
  offers : Nat
  answers : Nat
  iceCandidates : Nat
deriving DecidableEq

/-- The external document store: `RoomEvent`, `DailyStats` (keyed by calendar
day), `ErrorLog` and `TransferSession` collections. -/
structure ADB where
  roomEvents : List RoomEventRec
  dailyStats : Nat → Option DailyDoc
  errorLogs : List ErrorRec
  sessions : List SessionRec

def emptyADB : ADB := ⟨[], fun _ => none, [], []⟩

/-- Which store primitives fail (throw) during one analytics call. -/
structure Oracle where
  eventInsertFails : Bool
  eventQueryFails : Bool
  dailyUpdateFails : Bool
  hourlyFindFails : Bool
  hourlyInsertFails : Bool
  hourlySaveFails : Bool
  sessionFindFails : Bool
  sessionUpdateFails : Bool
  errorInsertFails : Bool

def noFail : Oracle := ⟨false, false, false, false, false, false, false, false, false⟩

def MINUTES_PER_DAY : Nat := 1440

def dayOf (t : Nat) : Nat := t / MINUTES_PER_DAY

def hourOf (t : Nat) : Nat := t % MINUTES_PER_DAY / 60

/-- `new Date(); d.setHours(0,0,0,0)` — truncate to the start of the day. -/
def startOfDay (t : Nat) : Nat := t / MINUTES_PER_DAY * MINUTES_PER_DAY

def setDaily (db : ADB) (d : Nat) (doc : DailyDoc) : ADB :=
  { db with dailyStats := fun x => if x = d then some doc else db.dailyStats x }

def dailyGet (doc : DailyDoc) : DailyField → Nat
  | DailyField.roomsCreated => doc.roomsCreated
  | DailyField.roomsCompleted => doc.roomsCompleted
  | DailyField.totalConnections => doc.totalConnections
  | DailyField.transfersCompleted => doc.transfersCompleted
  | DailyField.totalBytesTransferred => doc.totalBytesTransferred

def dailyInc (doc : DailyDoc) (f : DailyField) (a : Nat) : DailyDoc :=
  match f with
  | DailyField.roomsCreated => { doc with roomsCreated := doc.roomsCreated + a }
  | DailyField.roomsCompleted => { doc with roomsCompleted := doc.roomsCompleted + a }
  | DailyField.totalConnections => { doc with totalConnections := doc.totalConnections + a }
  | DailyField.transfersCompleted => { doc with transfersCompleted := doc.transfersCompleted + a }
  | DailyField.totalBytesTransferred =>
      { doc with totalBytesTransferred := doc.totalBytesTransferred + a }

/-- `incrementDailyStat(field, amount)`: one `DailyStats.updateOne` with
`$inc` and `upsert: true` — a single atomic increment-or-create store
operation on the document keyed by the day; there is no separate read. -/
def incrementDailyStat (o : Oracle) (now : Nat) (f : DailyField) (a : Nat) (db : ADB) : ADB :=
  if o.dailyUpdateFails then db
  else setDaily db (dayOf now) (dailyInc ((db.dailyStats (dayOf now)).getD emptyDailyDoc) f a)

def newBucket (h : Nat) (f : HourField) (a : Nat) : HourBucket :=
  ⟨h, if f = HourField.connections then a else 0,
      if f = HourField.roomsCreated then a else 0,
      if f = HourField.transfers then a else 0⟩

def bucketGet (b : HourBucket) : HourField → Nat
  | HourField.connections => b.connections
  | HourField.roomsCreated => b.roomsCreated
  | HourField.transfers => b.transfers

def bucketInc (b : HourBucket) (f : HourField) (a : Nat) : HourBucket :=
  match f with
  | HourField.connections => { b with connections := b.connections + a }
  | HourField.roomsCreated => { b with roomsCreated := b.roomsCreated + a }
  | HourField.transfers => { b with transfers := b.transfers + a }

/-- `findIndex(h => h.hour === currentHour)` followed by push-or-mutate:
update the first bucket with the given hour, or append a fresh one. -/
def updateBuckets : List HourBucket → Nat → HourField → Nat → List HourBucket
  | [], h, f, a => [newBucket h f a]
  | b :: rest, h, f, a =>
      if b.hour = h then bucketInc b f a :: rest
      else b :: updateBuckets rest h f a

def applyHourly (doc : DailyDoc) (h : Nat) (f : HourField) (a : Nat) : DailyDoc :=
  { doc with hourlyBreakdown := updateBuckets doc.hourlyBreakdown h f a }

/-- Read phase of `incrementHourlyStat`: `DailyStats.findOne({date: today})`,
creating today's (empty) document if absent. Returns the in-memory document
snapshot and the store as left by the create; `none` models a throw. -/
def hourlyReadPhase (o : Oracle) (now : Nat) (db : ADB) : Option (DailyDoc × ADB) :=
  if o.hourlyFindFails then none
  else
    match db.dailyStats (dayOf now) with
    | some doc => some (doc, db)
    | none =>
        if o.hourlyInsertFails then none
        else some (emptyDailyDoc, setDaily db (dayOf now) emptyDailyDoc)

/-- Write phase of `incrementHourlyStat`: `stats.save()` — writes the whole
in-memory document back, overwriting the stored one. -/
def hourlyWritePhase (now : Nat) (doc : DailyDoc) (f : HourField) (a : Nat) (db : ADB) : ADB :=
  setDaily db (dayOf now) (applyHourly doc (hourOf now) f a)

/-- `incrementHourlyStat(field, amount)`: a read-document / mutate-in-memory /
write-back sequence (`findOne` … mutate `hourlyBreakdown` … `save`), with the
whole body in `try/catch`. -/
def incrementHourlyStat (o : Oracle) (now : Nat) (f : HourField) (a : Nat) (db : ADB) : ADB :=
  match hourlyReadPhase o now db with
  | none => db
  | some (doc, db1) =>
      if o.hourlySaveFails then db1 else hourlyWritePhase now doc f a db1

/-- `RoomEvent.create(...)`; `none` models a throw. -/
def insertRoomEvent (o : Oracle) (e : RoomEventRec) (db : ADB) : Option ADB :=
  if o.eventInsertFails then none
  else some { db with roomEvents := db.roomEvents ++ [e] }

/-- `trackRoomCreated`. -/
def trackRoomCreated (o : Oracle) (now : Nat) (r u : String) (db : ADB) : ADB :=
  match insertRoomEvent o ⟨r, REType.created, u, now, 1⟩ db with
  | none => db
  | some db1 =>
      incrementHourlyStat o now HourField.roomsCreated 1
        (incrementDailyStat o now DailyField.roomsCreated 1 db1)

/-- `trackRoomJoined`. -/
def trackRoomJoined (o : Oracle) (now : Nat) (r u : String) (cnt : Nat) (db : ADB) : ADB :=
  match insertRoomEvent o ⟨r, REType.joined, u, now, cnt⟩ db with
  | none => db
  | some db1 =>
      incrementHourlyStat o now HourField.connections 1
        (incrementDailyStat o now DailyField.totalConnections 1 db1)

/-- `RoomEvent.exists({roomId, eventType: 'closed', timestamp: {$gte: today}})`. -/
def existsClosedToday (db : ADB) (now : Nat) (r : String) : Bool :=
  db.roomEvents.any (fun e =>
    e.roomId == r && e.eventType == REType.closed && Nat.ble (startOfDay now) e.ts)

/-- `trackRoomClosed`: same-day per-room dedup, then a `closed` event and a
`roomsCompleted` increment. -/
def trackRoomClosed (o : Oracle) (now : Nat) (r : String) (db : ADB) : ADB :=
  if o.eventQueryFails then db
  else if existsClosedToday db now r then db
  else
    match insertRoomEvent o ⟨r, REType.closed, "system", now, 0⟩ db with
    | none => db
    | some db1 => incrementDailyStat o now DailyField.roomsCompleted 1 db1

/-- `trackUserLeft`: records a `user_left` event and, when the room emptied,
delegates to `trackRoomClosed`. -/
def trackUserLeft (o : Oracle) (now : Nat) (r u : String) (remaining : Nat) (db : ADB) : ADB :=
  match insertRoomEvent o ⟨r, REType.user_left, u, now, remaining⟩ db with
  | none => db
  | some db1 => if remaining = 0 then trackRoomClosed o now r db1 else db1

def incSessionCounts (s0 : SessionRec) (k : RelayKind) : SessionRec :=
  match k with
  | RelayKind.offer => { s0 with offers := s0.offers + 1 }
  | RelayKind.answer => { s0 with answers := s0.answers + 1 }
  | RelayKind.iceCandidate => { s0 with iceCandidates := s0.iceCandidates + 1 }

/-- `trackSignalingEvent`: find the active session for the room (the list
order stands for the `startTime` sort) and `$inc` its counter. -/
def trackSignalingEvent (o : Oracle) (r : String) (k : RelayKind) (db : ADB) : ADB :=
  if o.sessionFindFails then db
  else
    match db.sessions.find? (fun s0 =>
        s0.roomId == r &&
          (s0.status == SessStatus.initiated || s0.status == SessStatus.transferring)) with
    | none => db
    | some s0 =>
        if o.sessionUpdateFails then db
        else
          { db with sessions := db.sessions.map (fun s1 =>
              if s1.sessionId = s0.sessionId then incSessionCounts s1 k else s1) }

/-- `logError`. -/
def logError (o : Oracle) (etype emsg rid uid : String) (db : ADB) : ADB :=
  if o.errorInsertFails then db
  else { db with errorLogs := db.errorLogs ++ [⟨etype, emsg, rid, uid⟩] }

/-! ## The full handlers: registry + analytics, in program order -/

/-- Each socket.io handler with the `await`ed analytics calls inserted at
their source positions, threading the store through.  The registry half
mirrors the handler bodies verbatim. -/
def stepFull (o : Oracle) (now : Nat) (st : ServerState) (db : ADB) :
    Op → (ServerState × ADB) × List Delivery
  | Op.create s r =>
      let st1 : ServerState :=
        { roomUsers := fupdate st.roomUsers r (some [s])
          userRoomMap := fupdate st.userRoomMap s (some r)
          ioRooms := fupdate st.ioRooms r (setAdd (st.ioRooms r) s) }
      let db1 := trackRoomCreated o now r s db
      ((st1, db1), [(s, ServerMsg.roomCreated r 1 MAX_ROOM_CAPACITY)])
  | Op.join s r =>
      if roomExists st r then
        let cur := getRoomOccupancy st r
        if isRoomFull st r then
          ((st, logError o "room_full" "Room is full" r s db),
           [(s, ServerMsg.roomFullMsg r cur (some MAX_ROOM_CAPACITY)
                 (roomFullRejectText cur MAX_ROOM_CAPACITY)),
            (s, ServerMsg.errorMsg "ROOM_FULL" (roomFullErrText cur MAX_ROOM_CAPACITY))])
        else
          let st1 : ServerState :=
            { roomUsers := fupdate st.roomUsers r (some (setAdd (membersOf st r) s))
              userRoomMap := fupdate st.userRoomMap s (some r)
              ioRooms := fupdate st.ioRooms r (setAdd (st.ioRooms r) s) }
          let occ := getRoomOccupancy st1 r
          let db1 := trackRoomJoined o now r s occ db
          let fl := isRoomFull st1 r
          let others := (st1.ioRooms r).filter (fun x => x ≠ s)
          ((st1, db1),
            others.map (fun u => (u, ServerMsg.userJoined s occ MAX_ROOM_CAPACITY fl))
              ++ [(s, ServerMsg.roomJoined r occ MAX_ROOM_CAPACITY fl)]
              ++ (if fl then
                    (st1.ioRooms r).map
                      (fun u => (u, ServerMsg.roomFullMsg r occ none roomFullNowText))
                  else []))
      else
        ((st, logError o "room_not_found" "Room ID not found" r s db),
         [(s, ServerMsg.errorMsg "ROOM_NOT_FOUND" roomNotFoundText)])
  | Op.leave s =>
      match st.userRoomMap s with
      | none => ((st, db), [])
      | some r =>
        if (st.roomUsers r).isSome then
          let ms := setRemove (membersOf st r) s
          let st1 : ServerState :=
            { roomUsers := fupdate st.roomUsers r (some ms)
              userRoomMap := fupdate st.userRoomMap s none
              ioRooms := fupdate st.ioRooms r (setRemove (st.ioRooms r) s) }
          let db1 := trackUserLeft o now r s ms.length db
          if ms.length = 0 then
            let p := deleteRoom st1 r
            ((p.1, db1), p.2 ++ [(s, ServerMsg.roomLeft r roomLeftText)])
          else
            let others := (st1.ioRooms r).filter (fun x => x ≠ s)
            ((st1, db1),
              others.map (fun u => (u, ServerMsg.userLeft s ms.length MAX_ROOM_CAPACITY))
                ++ [(s, ServerMsg.roomLeft r roomLeftText)])
        else ((st, db), [])
  | Op.disconnect s =>
      let q : (ServerState × ADB) × List Delivery :=
        match st.userRoomMap s with
        | none => ((st, db), [])
        | some r =>
          if (st.roomUsers r).isSome then
            let ms := setRemove (membersOf st r) s
            let st1 : ServerState :=
              { roomUsers := fupdate st.roomUsers r (some ms)
                userRoomMap := fupdate st.userRoomMap s none
                ioRooms := st.ioRooms }
            let db1 := trackUserLeft o now r s ms.length db
            if ms.length = 0 then
              ((( deleteRoom st1 r).1, db1), (deleteRoom st1 r).2)
            else
              let others := (st1.ioRooms r).filter (fun x => x ≠ s)
              ((st1, db1),
                others.map (fun u => (u, ServerMsg.userLeft s ms.length MAX_ROOM_CAPACITY)))
          else ((st, db), [])
      let st2 := disconnectCleanup q.1.1 s
      (({ st2 with ioRooms := ioRemoveAll st2.ioRooms s }, q.1.2), q.2)
  | Op.relay s r k p =>
      ((st, trackSignalingEvent o r k db), relayEvents st s r k p)

/-! ## Counting `room-dismissed` deliveries -/

/-- Is this delivery a `room-dismissed` for room `r`? -/
def isDismissFor (r : String) (d : Delivery) : Bool :=
  match d.2 with
  | ServerMsg.roomDismissed r2 _ => r2 == r
  | _ => false

def dismissCount (evs : List Delivery) (r : String) : Nat :=
  evs.countP (isDismissFor r)

theorem dismissCount_append (a b : List Delivery) (r : String) :
    dismissCount (a ++ b) r = dismissCount a r + dismissCount b r := by
  simp [dismissCount, List.countP_append]

theorem dismissCount_eq_zero {evs : List Delivery} {r : String}
    (h : ∀ d ∈ evs, isDismissFor r d = false) : dismissCount evs r = 0 := by
  simp only [dismissCount, List.countP_eq_zero]
  intro d hd
  simp [h d hd]

theorem dismissCount_map_msg {l : List String} {r : String} {g : String → ServerMsg}
    (h : ∀ u, isDismissFor r (u, g u) = false) :
    dismissCount (l.map (fun u => (u, g u))) r = 0 := by
  apply dismissCount_eq_zero
  intro d hd
  simp only [List.mem_map] at hd
  obtain ⟨u, _, rfl⟩ := hd
  exact h u

theorem dismissCount_dismiss_map (l : List String) (r r0 reason : String) :
    dismissCount (l.map (fun u => (u, ServerMsg.roomDismissed r0 reason))) r ≤ l.length := by
  calc dismissCount (l.map (fun u => (u, ServerMsg.roomDismissed r0 reason))) r
      ≤ (l.map (fun u => (u, ServerMsg.roomDismissed r0 reason))).length :=
        List.countP_le_length _
    _ = l.length := List.length_map _ _

theorem dismissCount_dismiss_map_ne (l : List String) {r r0 : String} (reason : String)
    (h : r0 ≠ r) :
    dismissCount (l.map (fun u => (u, ServerMsg.roomDismissed r0 reason))) r = 0 := by
  apply dismissCount_map_msg
  intro u
  simp [isDismissFor, h]

/-- No delivery emitted by `join-room` is a `room-dismissed`. -/
theorem joinRoom_no_dismiss (st : ServerState) (s r r2 : String) :
    ∀ d ∈ (joinRoom st s r).2, isDismissFor r2 d = false := by
  intro d hd
  simp only [joinRoom] at hd
  split at hd
  · split at hd
    · simp only [List.mem_cons, List.not_mem_nil, or_false] at hd
      rcases hd with rfl | rfl <;> simp [isDismissFor]
    · simp only [List.append_assoc, List.mem_append, List.mem_map,
        List.mem_singleton] at hd
      rcases hd with ⟨u, _, rfl⟩ | rfl | hd
      · simp [isDismissFor]
      · simp [isDismissFor]
      · split at hd
        · simp only [List.mem_map] at hd
          obtain ⟨u, _, rfl⟩ := hd
          simp [isDismissFor]
        · simp at hd
  · simp only [List.mem_singleton] at hd
    subst hd
    simp [isDismissFor]

/-- In any operation fired from an invariant-satisfying state, at most one
`room-dismissed` delivery is emitted for any room, and none at all for a room
that is not registered. -/
theorem step_dismissCount {st : ServerState} (hInv : Inv st) (op : Op) (r : String) :
    dismissCount (stepP st op).2 r ≤ 1 ∧
    (st.roomUsers r = none → dismissCount (stepP st op).2 r = 0) := by
  cases op with
  | create s0 r0 =>
    have hz : dismissCount (stepP st (Op.create s0 r0)).2 r = 0 := by
      apply dismissCount_eq_zero
      intro d hd
      simp only [stepP, createRoom, List.mem_singleton] at hd
      subst hd
      simp [isDismissFor]
    exact ⟨by rw [hz]; exact Nat.zero_le 1, fun _ => hz⟩
  | join s0 r0 =>
    have hz : dismissCount (stepP st (Op.join s0 r0)).2 r = 0 :=
      dismissCount_eq_zero (joinRoom_no_dismiss st s0 r0 r)
    exact ⟨by rw [hz]; exact Nat.zero_le 1, fun _ => hz⟩
  | leave s0 =>
    have hz : dismissCount (stepP st (Op.leave s0)).2 r = 0 := by
      cases hm : st.userRoomMap s0 with
      | none => rw [stepP, leaveRoom_none hm]; rfl
      | some r0 =>
        cases hru : st.roomUsers r0 with
        | none => rw [stepP, leaveRoom_stale hm hru]; rfl
        | some m =>
          have hio : st.ioRooms r0 = m := by
            rw [hInv.ioSync r0, membersOf_some hru]
          by_cases hms : setRemove m s0 = []
          · rw [stepP, leaveRoom_empty hm hru hms]
            have hrm : setRemove (st.ioRooms r0) s0 = [] := by rw [hio, hms]
            rw [hrm]
            simp only [List.map_nil, List.nil_append]
            apply dismissCount_eq_zero
            intro d hd
            simp only [List.mem_singleton] at hd
            subst hd
            simp [isDismissFor]
          · rw [stepP, leaveRoom_keep hm hru hms]
            apply dismissCount_eq_zero
            intro d hd
            simp only [List.mem_append, List.mem_map, List.mem_singleton] at hd
            rcases hd with ⟨u, _, rfl⟩ | rfl <;> simp [isDismissFor]
    exact ⟨by rw [hz]; exact Nat.zero_le 1, fun _ => hz⟩
  | disconnect s0 =>
    cases hm : st.userRoomMap s0 with
    | none =>
      have hz : dismissCount (stepP st (Op.disconnect s0)).2 r = 0 := by
        rw [stepP, disconnectOp_none hm]
        rfl
      exact ⟨by rw [hz]; exact Nat.zero_le 1, fun _ => hz⟩
    | some r0 =>
      cases hru : st.roomUsers r0 with
      | none =>
        exfalso
        have := hInv.mapMem s0 r0 hm
        rw [membersOf, hru] at this
        simp at this
      | some m =>
        have hsin : s0 ∈ m := by
          have := hInv.mapMem s0 r0 hm
          rwa [membersOf_some hru] at this
        have hnd : m.Nodup := by
          have := hInv.nodup r0
          rwa [membersOf_some hru] at this
        have hio : st.ioRooms r0 = m := by
          rw [hInv.ioSync r0, membersOf_some hru]
        by_cases hms : setRemove m s0 = []
        · have hmsing : m = [s0] := eq_singleton_of_setRemove_nil hnd hsin hms
          rw [stepP, disconnectOp_empty hm hru hms]
          constructor
          · show dismissCount
              ((st.ioRooms r0).map
                (fun u => (u, ServerMsg.roomDismissed r0 roomClosedText))) r ≤ 1
            have hle := dismissCount_dismiss_map (st.ioRooms r0) r r0 roomClosedText
            have hlen : (st.ioRooms r0).length = 1 := by rw [hio, hmsing]; rfl
            rw [hlen] at hle
            exact hle
          · intro hnone
            have hr0r : r0 ≠ r := by
              rintro rfl
              rw [hru] at hnone
              cases hnone
            exact dismissCount_dismiss_map_ne (st.ioRooms r0) roomClosedText hr0r
        · rw [stepP, disconnectOp_keep hm hru hms]
          have hz : dismissCount
              (((st.ioRooms r0).filter (fun x => x ≠ s0)).map
                (fun u => (u, ServerMsg.userLeft s0 (setRemove m s0).length
                  MAX_ROOM_CAPACITY))) r = 0 := by
            apply dismissCount_eq_zero
            intro d hd
            simp only [List.mem_map] at hd
            obtain ⟨u, _, rfl⟩ := hd
            simp [isDismissFor]
          exact ⟨by rw [hz]; exact Nat.zero_le 1, fun _ => hz⟩
  | relay s0 r0 k p =>
    have hz : dismissCount (stepP st (Op.relay s0 r0 k p)).2 r = 0 := by
      apply dismissCount_eq_zero
      intro d hd
      simp only [stepP, relayEvents, List.mem_map] at hd
      obtain ⟨u, _, rfl⟩ := hd
      simp [isDismissFor]
    exact ⟨by rw [hz]; exact Nat.zero_le 1, fun _ => hz⟩

/-- A room disappears from the registry only in the leave/disconnect
transition that removes its last member, and appears only through the
`create` handler. -/
theorem step_deletion {st : ServerState} (hInv : Inv st) (op : Op) (r : String) :
    ((st.roomUsers r).isSome → (stepP st op).1.roomUsers r = none →
       ∃ s, (op = Op.leave s ∨ op = Op.disconnect s) ∧ membersOf st r = [s]) ∧
    (st.roomUsers r = none → (stepP st op).1.roomUsers r ≠ none →
       ∃ s, op = Op.create s r) := by
  cases op with
  | create s0 r0 =>
    constructor
    · intro hs hpost
      simp only [stepP, createRoom] at hpost
      by_cases hr : r = r0
      · subst hr
        rw [fupdate_same] at hpost
        cases hpost
      · rw [fupdate_ne _ _ _ _ hr] at hpost
        rw [hpost] at hs
        simp at hs
    · intro hnone hpost
      simp only [stepP, createRoom] at hpost
      by_cases hr : r = r0
      · subst hr
        exact ⟨s0, rfl⟩
      · rw [fupdate_ne _ _ _ _ hr] at hpost
        exact absurd hnone hpost
  | join s0 r0 =>
    cases hex : roomExists st r0 with
    | false =>
      rw [stepP, joinRoom_of_not_exists hex]
      exact ⟨fun hs hpost => by rw [hpost] at hs; simp at hs,
             fun hnone hpost => absurd hnone hpost⟩
    | true =>
      cases hfull : isRoomFull st r0 with
      | true =>
        rw [stepP, joinRoom_of_full hex hfull]
        exact ⟨fun hs hpost => by rw [hpost] at hs; simp at hs,
               fun hnone hpost => absurd hnone hpost⟩
      | false =>
        have hfst : (stepP st (Op.join s0 r0)).1 = joinSt st s0 r0 :=
          joinRoom_success_fst hex hfull
        rw [hfst]
        constructor
        · intro hs hpost
          rw [joinSt] at hpost
          simp only at hpost
          by_cases hr : r = r0
          · subst hr
            rw [fupdate_same] at hpost
            cases hpost
          · rw [fupdate_ne _ _ _ _ hr] at hpost
            rw [hpost] at hs
            simp at hs
        · intro hnone hpost
          rw [joinSt] at hpost
          simp only at hpost
          by_cases hr : r = r0
          · subst hr
            rw [roomExists, hnone] at hex
            simp at hex
          · rw [fupdate_ne _ _ _ _ hr] at hpost
            exact absurd hnone hpost
  | leave s0 =>
    cases hm : st.userRoomMap s0 with
    | none =>
      rw [stepP, leaveRoom_none hm]
      exact ⟨fun hs hpost => by rw [hpost] at hs; simp at hs,
             fun hnone hpost => absurd hnone hpost⟩
    | some r0 =>
      cases hru : st.roomUsers r0 with
      | none =>
        rw [stepP, leaveRoom_stale hm hru]
        exact ⟨fun hs hpost => by rw [hpost] at hs; simp at hs,
               fun hnone hpost => absurd hnone hpost⟩
      | some m =>
        have hsin : s0 ∈ m := by
          have := hInv.mapMem s0 r0 hm
          rwa [membersOf_some hru] at this
        have hnd : m.Nodup := by
          have := hInv.nodup r0
          rwa [membersOf_some hru] at this
        by_cases hms : setRemove m s0 = []
        · rw [stepP, leaveRoom_empty hm hru hms]
          have hmsing : m = [s0] := eq_singleton_of_setRemove_nil hnd hsin hms
          constructor
          · intro hs hpost
            rw [leaveStDel] at hpost
            simp only at hpost
            by_cases hr : r = r0
            · subst hr
              exact ⟨s0, Or.inl rfl, by rw [membersOf_some hru, hmsing]⟩
            · rw [fupdate_ne _ _ _ _ hr] at hpost
              rw [hpost] at hs
              simp at hs
          · intro hnone hpost
            rw [leaveStDel] at hpost
            simp only at hpost
            by_cases hr : r = r0
            · subst hr
              rw [hru] at hnone
              cases hnone
            · rw [fupdate_ne _ _ _ _ hr] at hpost
              exact absurd hnone hpost
        · rw [stepP, leaveRoom_keep hm hru hms]
          constructor
          · intro hs hpost
            rw [leaveStKeep] at hpost
            simp only at hpost
            by_cases hr : r = r0
            · subst hr
              rw [fupdate_same] at hpost
              cases hpost
            · rw [fupdate_ne _ _ _ _ hr] at hpost
              rw [hpost] at hs
              simp at hs
          · intro hnone hpost
            rw [leaveStKeep] at hpost
            simp only at hpost
            by_cases hr : r = r0
            · subst hr
              rw [hru] at hnone
              cases hnone
            · rw [fupdate_ne _ _ _ _ hr] at hpost
              exact absurd hnone hpost
  | disconnect s0 =>
    cases hm : st.userRoomMap s0 with
    | none =>
      rw [stepP, disconnectOp_none hm]
      exact ⟨fun hs hpost => by rw [hpost] at hs; simp at hs,
             fun hnone hpost => absurd hnone hpost⟩
    | some r0 =>
      cases hru : st.roomUsers r0 with
      | none =>
        exfalso
        have := hInv.mapMem s0 r0 hm
        rw [membersOf, hru] at this
        simp at this
      | some m =>
        have hsin : s0 ∈ m := by
          have := hInv.mapMem s0 r0 hm
          rwa [membersOf_some hru] at this
        have hnd : m.Nodup := by
          have := hInv.nodup r0
          rwa [membersOf_some hru] at this
        by_cases hms : setRemove m s0 = []
        · rw [stepP, disconnectOp_empty hm hru hms]
          have hmsing : m = [s0] := eq_singleton_of_setRemove_nil hnd hsin hms
          constructor
          · intro hs hpost
            simp only at hpost
            by_cases hr : r = r0
            · subst hr
              exact ⟨s0, Or.inr rfl, by rw [membersOf_some hru, hmsing]⟩
            · rw [fupdate_ne _ _ _ _ hr] at hpost
              rw [hpost] at hs
              simp at hs
          · intro hnone hpost
            simp only at hpost
            by_cases hr : r = r0
            · subst hr
              rw [hru] at hnone
              cases hnone
            · rw [fupdate_ne _ _ _ _ hr] at hpost
              exact absurd hnone hpost
        · rw [stepP, disconnectOp_keep hm hru hms]
          constructor
          · intro hs hpost
            simp only at hpost
            by_cases hr : r = r0
            · subst hr
              rw [fupdate_same] at hpost
              cases hpost
            · rw [fupdate_ne _ _ _ _ hr] at hpost
              rw [hpost] at hs
              simp at hs
          · intro hnone hpost
            simp only at hpost
            by_cases hr : r = r0
            · subst hr
              rw [hru] at hnone
              cases hnone
            · rw [fupdate_ne _ _ _ _ hr] at hpost
              exact absurd hnone hpost
  | relay s0 r0 k p =>
    refine ⟨fun hs hpost => ?_, fun hnone hpost => ?_⟩
    · simp only [stepP] at hpost
      rw [hpost] at hs
      simp at hs
    · simp only [stepP] at hpost
      exact absurd hnone hpost

/-! ## Same-day deduplication of room closures -/

@[simp] theorem setDaily_same (db : ADB) (d : Nat) (doc : DailyDoc) :
    (setDaily db d doc).dailyStats d = some doc := by
  simp [setDaily]

@[simp] theorem setDaily_ne (db : ADB) (d : Nat) (doc : DailyDoc) (d' : Nat)
    (h : d' ≠ d) : (setDaily db d doc).dailyStats d' = db.dailyStats d' := by
  simp [setDaily, h]

@[simp] theorem setDaily_roomEvents (db : ADB) (d : Nat) (doc : DailyDoc) :
    (setDaily db d doc).roomEvents = db.roomEvents := rfl

/-- The calls into the analytics module fired by explicit leaves and by
disconnect teardowns (each carrying its wall-clock time). -/
inductive ACall where
  | aUserLeft (r u : String) (remaining : Nat)
  | aRoomClosed (r : String)

def runACall (p : Nat × ACall) (db : ADB) : ADB :=
  match p.2 with
  | ACall.aUserLeft r u k => trackUserLeft noFail p.1 r u k db
  | ACall.aRoomClosed r => trackRoomClosed noFail p.1 r db

def runACalls (l : List (Nat × ACall)) (db : ADB) : ADB :=
  l.foldl (fun db p => runACall p db) db

def isClosedFor (r : String) (d : Nat) (e : RoomEventRec) : Bool :=
  e.roomId == r && e.eventType == REType.closed && dayOf e.ts == d

/-- Number of `closed` events recorded for room `r` on calendar day `d`. -/
def closedCount (db : ADB) (r : String) (d : Nat) : Nat :=
  db.roomEvents.countP (isClosedFor r d)

def isClosedOn (d : Nat) (e : RoomEventRec) : Bool :=
  e.eventType == REType.closed && dayOf e.ts == d

/-- Number of `closed` events recorded on calendar day `d` (any room). -/
def closedOnDay (db : ADB) (d : Nat) : Nat :=
  db.roomEvents.countP (isClosedOn d)

/-- The stored `roomsCompleted` counter of day `d`. -/
def roomsCompletedOn (db : ADB) (d : Nat) : Nat :=
  match db.dailyStats d with
  | none => 0
  | some doc => doc.roomsCompleted

/-- All room events in the store happened at or before `t`. -/
def EventsWF (db : ADB) (t : Nat) : Prop :=
  ∀ e ∈ db.roomEvents, e.ts ≤ t

theorem startOfDay_le_of_same_day {t now : Nat} (h : dayOf t = dayOf now) :
    startOfDay now ≤ t := by
  unfold dayOf at h
  unfold startOfDay
  rw [← h]
  exact Nat.div_mul_le_self t MINUTES_PER_DAY

theorem trackRoomClosed_suppressed {now : Nat} {r : String} {db : ADB}
    (h : existsClosedToday db now r = true) :
    trackRoomClosed noFail now r db = db := by
  simp [trackRoomClosed, noFail, h]

theorem trackRoomClosed_fresh {now : Nat} {r : String} {db : ADB}
    (h : existsClosedToday db now r = false) :
    trackRoomClosed noFail now r db =
      incrementDailyStat noFail now DailyField.roomsCompleted 1
        { db with roomEvents := db.roomEvents ++ [⟨r, REType.closed, "system", now, 0⟩] } := by
  simp [trackRoomClosed, insertRoomEvent, noFail, h]

/-- If there is no closed event for `(r, today)` yet, `closedCount` is zero —
the `$gte: today` existence probe is complete for same-day events. -/
theorem closedCount_zero_of_not_exists {now : Nat} {r : String} {db : ADB}
    (h : existsClosedToday db now r = false) :
    closedCount db r (dayOf now) = 0 := by
  rw [closedCount, List.countP_eq_zero]
  intro e he hcl
  rw [existsClosedToday] at h
  have : ∃ e ∈ db.roomEvents,
      (e.roomId == r && e.eventType == REType.closed
        && Nat.ble (startOfDay now) e.ts) = true := by
    refine ⟨e, he, ?_⟩
    rw [isClosedFor] at hcl
    simp only [Bool.and_eq_true, beq_iff_eq] at hcl
    obtain ⟨⟨h1, h2⟩, h3⟩ := hcl
    simp only [Bool.and_eq_true, beq_iff_eq]
    refine ⟨⟨h1, h2⟩, ?_⟩
    rw [Nat.ble_eq]
    exact startOfDay_le_of_same_day h3
  obtain ⟨e2, he2, hp⟩ := this
  have htrue : (db.roomEvents.any fun e =>
      e.roomId == r && e.eventType == REType.closed
        && Nat.ble (startOfDay now) e.ts) = true :=
    List.any_eq_true.mpr ⟨e2, he2, hp⟩
  simp [htrue] at h

theorem roomsCompletedOn_inc (now : Nat) (db : ADB) (d : Nat) :
    roomsCompletedOn (incrementDailyStat noFail now DailyField.roomsCompleted 1 db) d =
      if d = dayOf now then roomsCompletedOn db d + 1 else roomsCompletedOn db d := by
  by_cases hd : d = dayOf now
  · subst hd
    simp only [incrementDailyStat, noFail, Bool.false_eq_true, if_false,
      roomsCompletedOn, setDaily_same]
    cases hds : db.dailyStats (dayOf now) with
    | none => simp [hds, dailyInc, emptyDailyDoc]
    | some doc => simp [hds, dailyInc]
  · simp only [incrementDailyStat, noFail, Bool.false_eq_true, if_false,
      roomsCompletedOn, setDaily_ne _ _ _ _ hd, hd, if_false]

theorem closedCount_inc_daily (now : Nat) (f : DailyField) (a : Nat) (db : ADB)
    (r : String) (d : Nat) :
    closedCount (incrementDailyStat noFail now f a db) r d = closedCount db r d := by
  simp [incrementDailyStat, noFail, closedCount]

theorem closedOnDay_inc_daily (now : Nat) (f : DailyField) (a : Nat) (db : ADB)
    (d : Nat) :
    closedOnDay (incrementDailyStat noFail now f a db) d = closedOnDay db d := by
  simp [incrementDailyStat, noFail, closedOnDay]

theorem roomsCompletedOn_append (db : ADB) (es : List RoomEventRec) (d : Nat) :
    roomsCompletedOn { db with roomEvents := db.roomEvents ++ es } d =
      roomsCompletedOn db d := rfl

/-- Effect of one `trackRoomClosed` call on the closure counters. -/
theorem trackRoomClosed_effect (now : Nat) (r : String) (db : ADB) :
    (∀ r2 d, closedCount (trackRoomClosed noFail now r db) r2 d ≤
       max (closedCount db r2 d) 1) ∧
    (∀ r2 d, closedCount db r2 d ≤ closedCount (trackRoomClosed noFail now r db) r2 d) := by
  constructor <;> intro r2 d <;>
    cases hex : existsClosedToday db now r
  · rw [trackRoomClosed_fresh hex, closedCount_inc_daily]
    by_cases hcl : isClosedFor r2 d ⟨r, REType.closed, "system", now, 0⟩ = true
    · have hr2 : r2 = r ∧ d = dayOf now := by
        rw [isClosedFor] at hcl
        simp only [Bool.and_eq_true, beq_iff_eq] at hcl
        exact ⟨hcl.1.1.symm, hcl.2.symm⟩
      obtain ⟨hr2, hd⟩ := hr2
      subst hr2
      subst hd
      have h0 := closedCount_zero_of_not_exists hex
      simp only [closedCount, List.countP_append]
      rw [closedCount] at h0
      rw [h0]
      simp only [Nat.zero_add]
      have : List.countP (isClosedFor r2 (dayOf now))
          [(⟨r2, REType.closed, "system", now, 0⟩ : RoomEventRec)] = 1 := by
        simp [List.countP, List.countP.go, hcl]
      rw [this]
      exact le_max_right _ 1
    · simp only [closedCount, List.countP_append]
      have : List.countP (isClosedFor r2 d)
          [(⟨r, REType.closed, "system", now, 0⟩ : RoomEventRec)] = 0 := by
        simp only [List.countP, List.countP.go]
        simp [hcl]
      rw [this]
      exact le_max_left _ 1
  · rw [trackRoomClosed_suppressed hex]
    exact le_max_left _ 1
  · rw [trackRoomClosed_fresh hex, closedCount_inc_daily]
    simp only [closedCount, List.countP_append]
    exact Nat.le_add_right _ _
  · rw [trackRoomClosed_suppressed hex]

/-- One `trackRoomClosed` call keeps `roomsCompleted` equal to the number of
recorded closures, day by day. -/
theorem trackRoomClosed_completed (now : Nat) (r : String) (db : ADB)
    (h : ∀ d, roomsCompletedOn db d = closedOnDay db d) :
    ∀ d, roomsCompletedOn (trackRoomClosed noFail now r db) d =
      closedOnDay (trackRoomClosed noFail now r db) d := by
  intro d
  cases hex : existsClosedToday db now r with
  | true => rw [trackRoomClosed_suppressed hex]; exact h d
  | false =>
    rw [trackRoomClosed_fresh hex, roomsCompletedOn_inc, closedOnDay_inc_daily]
    have hone : closedOnDay
        { db with roomEvents := db.roomEvents
            ++ [⟨r, REType.closed, "system", now, 0⟩] } d =
        closedOnDay db d + (if d = dayOf now then 1 else 0) := by
      simp only [closedOnDay, List.countP_append]
      congr 1
      by_cases hd : d = dayOf now
      · subst hd
        simp [List.countP_cons, isClosedOn]
      · simp [List.countP_cons, isClosedOn, hd, Ne.symm hd]
    rw [hone, roomsCompletedOn_append]
    by_cases hd : d = dayOf now
    · subst hd
      rw [if_pos rfl, if_pos rfl, h]
    · rw [if_neg hd, if_neg hd, Nat.add_zero]
      exact h d

theorem closedCount_append_user_left (db : ADB) (r u : String) (now k : Nat)
    (r2 : String) (d : Nat) :
    closedCount { db with roomEvents := db.roomEvents
        ++ [⟨r, REType.user_left, u, now, k⟩] } r2 d = closedCount db r2 d := by
  simp only [closedCount, List.countP_append]
  have : List.countP (isClosedFor r2 d)
      [(⟨r, REType.user_left, u, now, k⟩ : RoomEventRec)] = 0 := by
    simp [List.countP_cons, isClosedFor]
  rw [this, Nat.add_zero]

theorem closedOnDay_append_user_left (db : ADB) (r u : String) (now k : Nat)
    (d : Nat) :
    closedOnDay { db with roomEvents := db.roomEvents
        ++ [⟨r, REType.user_left, u, now, k⟩] } d = closedOnDay db d := by
  simp only [closedOnDay, List.countP_append]
  have : List.countP (isClosedOn d)
      [(⟨r, REType.user_left, u, now, k⟩ : RoomEventRec)] = 0 := by
    simp [List.countP_cons, isClosedOn]
  rw [this, Nat.add_zero]

theorem existsClosedToday_append_user_left (db : ADB) (r u r3 : String)
    (now2 now k : Nat) :
    existsClosedToday { db with roomEvents := db.roomEvents
        ++ [⟨r, REType.user_left, u, now, k⟩] } now2 r3 =
      existsClosedToday db now2 r3 := by
  simp [existsClosedToday, List.any_append]

/-- The per-(room, day) closure-counter invariant, preserved by every
analytics call fired from leaves and disconnects. -/
def ClosureInv (db : ADB) : Prop :=
  (∀ r d, closedCount db r d ≤ 1) ∧
  (∀ d, roomsCompletedOn db d = closedOnDay db d)

theorem closureInv_trackRoomClosed {db : ADB} (h : ClosureInv db)
    (now : Nat) (r : String) : ClosureInv (trackRoomClosed noFail now r db) := by
  constructor
  · intro r2 d
    have := (trackRoomClosed_effect now r db).1 r2 d
    have hle := h.1 r2 d
    calc closedCount (trackRoomClosed noFail now r db) r2 d
        ≤ max (closedCount db r2 d) 1 := this
      _ ≤ 1 := by
          rcases max_le_iff.mpr ⟨hle, le_refl 1⟩ with h2
          exact max_le hle (le_refl 1)
  · exact trackRoomClosed_completed now r db h.2

theorem trackUserLeft_zero (now : Nat) (r u : String) (db : ADB) :
    trackUserLeft noFail now r u 0 db =
      trackRoomClosed noFail now r
        { db with roomEvents := db.roomEvents ++ [⟨r, REType.user_left, u, now, 0⟩] } := by
  simp [trackUserLeft, insertRoomEvent, noFail]

theorem trackUserLeft_pos (now : Nat) (r u : String) {k : Nat} (hk : k ≠ 0) (db : ADB) :
    trackUserLeft noFail now r u k db =
      { db with roomEvents := db.roomEvents ++ [⟨r, REType.user_left, u, now, k⟩] } := by
  simp [trackUserLeft, insertRoomEvent, noFail, hk]

theorem closureInv_trackUserLeft {db : ADB} (h : ClosureInv db)
    (now : Nat) (r u : String) (k : Nat) :
    ClosureInv (trackUserLeft noFail now r u k db) := by
  have hU : ClosureInv { db with roomEvents := db.roomEvents
      ++ [⟨r, REType.user_left, u, now, k⟩] } := by
    constructor
    · intro r2 d
      rw [closedCount_append_user_left]
      exact h.1 r2 d
    · intro d
      rw [closedOnDay_append_user_left, roomsCompletedOn_append]
      exact h.2 d
  by_cases hk : k = 0
  · subst hk
    rw [trackUserLeft_zero]
    exact closureInv_trackRoomClosed hU now r
  · rw [trackUserLeft_pos now r u hk]
    exact hU

theorem closureInv_runACalls (l : List (Nat × ACall)) {db : ADB}
    (h : ClosureInv db) : ClosureInv (runACalls l db) := by
  induction l generalizing db with
  | nil => exact h
  | cons p rest ih =>
    rw [runACalls, List.foldl_cons]
    apply ih
    cases hp : p.2 with
    | aUserLeft r u k =>
      have : runACall p db = trackUserLeft noFail p.1 r u k db := by
        rw [runACall, hp]
      rw [this]
      exact closureInv_trackUserLeft h p.1 r u k
    | aRoomClosed r =>
      have : runACall p db = trackRoomClosed noFail p.1 r db := by
        rw [runACall, hp]
      rw [this]
      exact closureInv_trackRoomClosed h p.1 r

theorem closureInv_empty : ClosureInv emptyADB := by
  constructor
  · intro r d
    simp [closedCount, emptyADB]
  · intro d
    simp [roomsCompletedOn, closedOnDay, emptyADB]

/-! ## Counter pipelines: atomic daily increments vs hourly read-modify-write

`incrementDailyStat` is a single atomic store action, so any concurrent
schedule of N calls executes as the N-fold composition `seqApply`.
`incrementHourlyStat` is two store actions (`findOne` … `save`) with the
document passed in memory between them, so overlapping calls admit schedules
in which both reads precede both writes. -/

def seqApply (g : ADB → ADB) : Nat → ADB → ADB
  | 0, db => db
  | n + 1, db => seqApply g n (g db)

/-- The stored value of a top-level daily counter. -/
def dailyCount (db : ADB) (d : Nat) (f : DailyField) : Nat :=
  match db.dailyStats d with
  | none => 0
  | some doc => dailyGet doc f

theorem dailyGet_dailyInc (doc : DailyDoc) (f : DailyField) (a : Nat) :
    dailyGet (dailyInc doc f a) f = dailyGet doc f + a := by
  cases f <;> rfl

theorem dailyGet_empty (f : DailyField) : dailyGet emptyDailyDoc f = 0 := by
  cases f <;> rfl

theorem dailyCount_inc (now : Nat) (f : DailyField) (a : Nat) (db : ADB) :
    dailyCount (incrementDailyStat noFail now f a db) (dayOf now) f =
      dailyCount db (dayOf now) f + a := by
  simp only [incrementDailyStat, noFail, Bool.false_eq_true, if_false,
    dailyCount, setDaily_same]
  rw [dailyGet_dailyInc]
  cases hds : db.dailyStats (dayOf now) with
  | none => simp [dailyGet_empty]
  | some doc => simp

theorem dailyCount_seq (now : Nat) (f : DailyField) :
    ∀ (n : Nat) (db : ADB),
      dailyCount (seqApply (incrementDailyStat noFail now f 1) n db) (dayOf now) f =
        dailyCount db (dayOf now) f + n := by
  intro n
  induction n with
  | zero => intro db; rfl
  | succ n ih =>
    intro db
    rw [seqApply, ih, dailyCount_inc]
    omega

/-- The stored value of an hourly-bucket field (0 when absent), read the way
the code reads it: first bucket whose `hour` matches. -/
def bucketVal (l : List HourBucket) (h : Nat) (f : HourField) : Nat :=
  match l.find? (fun b => b.hour == h) with
  | none => 0
  | some b => bucketGet b f

def hourVal (db : ADB) (now : Nat) (f : HourField) : Nat :=
  match db.dailyStats (dayOf now) with
  | none => 0
  | some doc => bucketVal doc.hourlyBreakdown (hourOf now) f

theorem bucketGet_bucketInc (b : HourBucket) (f : HourField) (a : Nat) :
    bucketGet (bucketInc b f a) f = bucketGet b f + a := by
  cases f <;> rfl

theorem bucketGet_newBucket (h : Nat) (f : HourField) (a : Nat) :
    bucketGet (newBucket h f a) f = a := by
  cases f <;> simp [newBucket, bucketGet]

theorem bucketInc_hour (b : HourBucket) (f : HourField) (a : Nat) :
    (bucketInc b f a).hour = b.hour := by
  cases f <;> rfl

theorem bucketVal_nil (h : Nat) (f : HourField) : bucketVal [] h f = 0 := rfl

theorem bucketVal_cons_pos {b : HourBucket} {h : Nat} (hb : b.hour = h)
    (rest : List HourBucket) (f : HourField) :
    bucketVal (b :: rest) h f = bucketGet b f := by
  rw [bucketVal, List.find?_cons_of_pos _ (by simp [hb])]

theorem bucketVal_cons_neg {b : HourBucket} {h : Nat} (hb : ¬ b.hour = h)
    (rest : List HourBucket) (f : HourField) :
    bucketVal (b :: rest) h f = bucketVal rest h f := by
  rw [bucketVal, List.find?_cons_of_neg _ (by simp [hb]), bucketVal]

theorem bucketVal_updateBuckets (l : List HourBucket) (h : Nat) (f : HourField) (a : Nat) :
    bucketVal (updateBuckets l h f a) h f = bucketVal l h f + a := by
  induction l with
  | nil =>
    show bucketVal [newBucket h f a] h f = bucketVal [] h f + a
    rw [bucketVal_cons_pos (show (newBucket h f a).hour = h from rfl) [] f,
      bucketVal_nil, bucketGet_newBucket]
    omega
  | cons b rest ih =>
    show bucketVal
      (if b.hour = h then bucketInc b f a :: rest else b :: updateBuckets rest h f a) h f =
      bucketVal (b :: rest) h f + a
    by_cases hb : b.hour = h
    · rw [if_pos hb,
        bucketVal_cons_pos (show (bucketInc b f a).hour = h from by rw [bucketInc_hour]; exact hb),
        bucketVal_cons_pos hb, bucketGet_bucketInc]
    · rw [if_neg hb, bucketVal_cons_neg hb, bucketVal_cons_neg hb, ih]

theorem hourVal_inc (now : Nat) (f : HourField) (a : Nat) (db : ADB) :
    hourVal (incrementHourlyStat noFail now f a db) now f = hourVal db now f + a := by
  rw [incrementHourlyStat]
  cases hds : db.dailyStats (dayOf now) with
  | some doc =>
    simp only [hourlyReadPhase, noFail, Bool.false_eq_true, if_false, hds]
    simp only [hourlyWritePhase, hourVal, setDaily_same, applyHourly, hds]
    exact bucketVal_updateBuckets _ _ _ _
  | none =>
    simp only [hourlyReadPhase, noFail, Bool.false_eq_true, if_false, hds]
    simp only [hourlyWritePhase, hourVal, setDaily_same, applyHourly, hds]
    rw [bucketVal_updateBuckets]
    rfl

theorem hourVal_seq (now : Nat) (f : HourField) :
    ∀ (n : Nat) (db : ADB),
      hourVal (seqApply (incrementHourlyStat noFail now f 1) n db) now f =
        hourVal db now f + n := by
  intro n
  induction n with
  | zero => intro db; rfl
  | succ n ih =>
    intro db
    rw [seqApply, ih, hourVal_inc]
    omega

/-- The racy schedule: both `findOne` reads complete before either `save`
writes back.  Legal because each call suspends between its read and its
write. -/
def hourlyRaceResult (now : Nat) (f : HourField) : ADB :=
  match hourlyReadPhase noFail now emptyADB with
  | none => emptyADB
  | some (doc1, db1) =>
    match hourlyReadPhase noFail now db1 with
    | none => emptyADB
    | some (doc2, db2) =>
        hourlyWritePhase now doc2 f 1 (hourlyWritePhase now doc1 f 1 db2)

/-- The racy schedule of two hourly increments leaves the bucket at 1: the
second `save` overwrites the first one's increment. -/
theorem hourlyRace_eq_one (now : Nat) (f : HourField) :
    hourVal (hourlyRaceResult now f) now f = 1 := by
  have hread1 : hourlyReadPhase noFail now emptyADB =
      some (emptyDailyDoc, setDaily emptyADB (dayOf now) emptyDailyDoc) := by
    simp [hourlyReadPhase, noFail, emptyADB]
  have hread2 : hourlyReadPhase noFail now (setDaily emptyADB (dayOf now) emptyDailyDoc) =
      some (emptyDailyDoc, setDaily emptyADB (dayOf now) emptyDailyDoc) := by
    simp [hourlyReadPhase, noFail]
  rw [hourlyRaceResult]
  simp only [hread1, hread2]
  simp only [hourlyWritePhase, hourVal, setDaily_same, applyHourly]
  rw [bucketVal_updateBuckets]
  rfl

/-! ## Concrete example states -/

/-- After `A` creates room `R`. -/
def stA : ServerState := (stepP initState (Op.create "A" "R")).1

/-- After `A` creates room `R` and `B` joins it. -/
def stAB : ServerState := (stepP stA (Op.join "B" "R")).1

theorem reach_stA : Reachable stA :=
  Reachable.create "A" "R" Reachable.init rfl rfl

theorem reach_stAB : Reachable stAB :=
  Reachable.join "B" "R" reach_stA (by decide)

def isErrorDelivery (d : Delivery) : Bool :=
  match d.2 with
  | ServerMsg.errorMsg _ _ => true
  | _ => false

/-! ## Claims -/

/-- C1: the spec claims occupancy stays in {0,1,2} and a join into a room at
member count 2 is rejected with `RoomFull`.  The code's `isRoomFull` uses
`>` instead of `>=`, so with room `R` holding {A, B} (occupancy 2), a third
join by `C` is admitted: `C` becomes a member, occupancy reaches 3, `C`
receives `room-joined`, and no `ROOM_FULL` error is emitted. -/
theorem C1_third_join_admitted :
    getRoomOccupancy stAB "R" = 2 ∧
    isRoomFull stAB "R" = false ∧
    getRoomOccupancy (stepP stAB (Op.join "C" "R")).1 "R" = 3 ∧
    "C" ∈ membersOf (stepP stAB (Op.join "C" "R")).1 "R" ∧
    ((stepP stAB (Op.join "C" "R")).2.any fun d =>
      decide (d.1 = "C") && (match d.2 with
        | ServerMsg.roomJoined _ _ _ _ => true
        | _ => false)) = true ∧
    ((stepP stAB (Op.join "C" "R")).2.all fun d => !isErrorDelivery d) = true := by
  decide

/-- C4: the spec claims that when `B` joins a room holding only `A`, both
peers see `isFull: true` and a `room-full` broadcast follows.  Because
`isRoomFull` is `occupancy > 2`, at occupancy 2 the flag is `false` and no
broadcast is emitted: the join step delivers exactly `user-joined` to `A`
and `room-joined` to `B`, both with `isFull: false`. -/
theorem C4_second_join_lacks_full_notifications :
    getRoomOccupancy stA "R" = 1 ∧
    (stepP stA (Op.join "B" "R")).2 =
      [("A", ServerMsg.userJoined "B" 2 2 false),
       ("B", ServerMsg.roomJoined "R" 2 2 false)] ∧
    isRoomFull (stepP stA (Op.join "B" "R")).1 "R" = false := by
  decide

/-- C3(counterexample): the relay handlers perform no sender-membership
check.  With room `R` = {A, B} and `C` not a member (and in no room at all),
an offer relayed by `C` is still delivered to both members — refuting "no
delivery to anyone occurs". -/
theorem C3_nonmember_relay_delivered :
    stAB.roomUsers "R" = some ["A", "B"] ∧
    "C" ∉ membersOf stAB "R" ∧
    stAB.userRoomMap "C" = none ∧
    relayEvents stAB "C" "R" RelayKind.offer "blob" =
      [("A", ServerMsg.relayMsg RelayKind.offer "blob"),
       ("B", ServerMsg.relayMsg RelayKind.offer "blob")] := by
  decide

/-- C3(amended): for every reachable state and registered room, a relay
delivers the payload unmodified to every current member except the sender —
regardless of whether the sender is a member.  A member's payload reaches
every other member and is never echoed back; a non-member's payload is still
delivered to all members; the registry is unchanged and no error is sent. -/
theorem C3_relay_behavior (st : ServerState) (hre : Reachable st)
    (sender r p : String) (k : RelayKind) (m : List String)
    (hm : st.roomUsers r = some m) :
    (stepP st (Op.relay sender r k p)).1 = st ∧
    (stepP st (Op.relay sender r k p)).2 =
      (m.filter (fun x => x ≠ sender)).map (fun u => (u, ServerMsg.relayMsg k p)) ∧
    ((stepP st (Op.relay sender r k p)).2.all fun d => d.1 != sender) = true := by
  have hInv := reachable_inv hre
  have hev : (stepP st (Op.relay sender r k p)).2 =
      (m.filter (fun x => x ≠ sender)).map (fun u => (u, ServerMsg.relayMsg k p)) := by
    show relayEvents st sender r k p = _
    rw [relayEvents, hInv.ioSync r, membersOf_some hm]
  refine ⟨rfl, hev, ?_⟩
  rw [hev, List.all_eq_true]
  intro d hd
  simp only [List.mem_map, List.mem_filter] at hd
  obtain ⟨u, ⟨_, hu2⟩, rfl⟩ := hd
  have : u ≠ sender := by simpa using hu2
  simpa [bne_iff_ne] using this

theorem C3_relay_behavior_witness :
    (stepP stAB (Op.relay "A" "R" RelayKind.offer "blob")).1 = stAB ∧
    (stepP stAB (Op.relay "A" "R" RelayKind.offer "blob")).2 =
      (["A", "B"].filter (fun x => x ≠ "A")).map
        (fun u => (u, ServerMsg.relayMsg RelayKind.offer "blob")) ∧
    ((stepP stAB (Op.relay "A" "R" RelayKind.offer "blob")).2.all
      fun d => d.1 != "A") = true :=
  C3_relay_behavior stAB reach_stAB "A" "R" "blob" RelayKind.offer ["A", "B"] (by decide)

/-- C5: in every reachable state no registered room has zero members; any
single operation emits at most one `room-dismissed` delivery per room (none
for unregistered rooms); a room leaves the registry only in the
leave/disconnect transition that removes its last member; and a room enters
the registry only through `create`. -/
theorem C5_room_deletion_discipline (st : ServerState) (hre : Reachable st)
    (op : Op) (r : String) :
    ((st.roomUsers r).isSome → getRoomOccupancy st r ≠ 0) ∧
    dismissCount (stepP st op).2 r ≤ 1 ∧
    ((st.roomUsers r).isSome → (stepP st op).1.roomUsers r = none →
      ∃ s, (op = Op.leave s ∨ op = Op.disconnect s) ∧ membersOf st r = [s]) ∧
    (st.roomUsers r = none → (stepP st op).1.roomUsers r ≠ none →
      ∃ s, op = Op.create s r) ∧
    (st.roomUsers r = none → dismissCount (stepP st op).2 r = 0) := by
  have hInv := reachable_inv hre
  refine ⟨?_, (step_dismissCount hInv op r).1, (step_deletion hInv op r).1,
    (step_deletion hInv op r).2, (step_dismissCount hInv op r).2⟩
  intro hs h0
  exact hInv.nonEmpty r hs (List.length_eq_zero.mp h0)

theorem C5_room_deletion_discipline_witness :
    ((stA.roomUsers "R").isSome → getRoomOccupancy stA "R" ≠ 0) ∧
    dismissCount (stepP stA (Op.leave "A")).2 "R" ≤ 1 ∧
    ((stA.roomUsers "R").isSome → (stepP stA (Op.leave "A")).1.roomUsers "R" = none →
      ∃ s, (Op.leave "A" = Op.leave s ∨ Op.leave "A" = Op.disconnect s) ∧
        membersOf stA "R" = [s]) ∧
    (stA.roomUsers "R" = none → (stepP stA (Op.leave "A")).1.roomUsers "R" ≠ none →
      ∃ s, Op.leave "A" = Op.create s "R") ∧
    (stA.roomUsers "R" = none → dismissCount (stepP stA (Op.leave "A")).2 "R" = 0) :=
  C5_room_deletion_discipline stA reach_stA (Op.leave "A") "R"

/-- C7: tearing down a connection that is a member of no room (never joined,
already left, or already torn down) changes neither registry nor channel
state and emits nothing: the full `disconnecting`/`disconnect` sequence is a
no-op. -/
theorem C7_disconnect_idempotent (st : ServerState) (hre : Reachable st)
    (s : String) (hns : ∀ r, s ∉ membersOf st r) :
    stepP st (Op.disconnect s) = (st, []) := by
  have hInv := reachable_inv hre
  have hm : st.userRoomMap s = none := by
    cases hmm : st.userRoomMap s with
    | none => rfl
    | some r => exact absurd (hInv.mapMem s r hmm) (hns r)
  rw [stepP, disconnectOp_none hm]
  have hio : ioRemoveAll st.ioRooms s = st.ioRooms := by
    funext r
    rw [ioRemoveAll_apply, hInv.ioSync r]
    exact setRemove_of_not_mem (hns r)
  rw [hio]

theorem C7_disconnect_idempotent_witness :
    stepP stA (Op.disconnect "B") = (stA, []) :=
  C7_disconnect_idempotent stA reach_stA "B" (fun r => by
    by_cases hr : r = "R"
    · subst hr
      decide
    · show "B" ∉ membersOf stA r
      rw [membersOf]
      have hnone : stA.roomUsers r = none := by
        show fupdate (fun _ => none) "R" (some ["A"]) r = none
        rw [fupdate_ne _ _ _ _ hr]
      rw [hnone]
      simp)

/-- C10: a `leave-room` from a connection that is a member of no room is a
complete no-op at the public interface — registries unchanged and no
delivery of any kind (no `room-left` acknowledgment, no error). -/
theorem C10_leave_noop (st : ServerState) (hre : Reachable st)
    (s : String) (hns : ∀ r, s ∉ membersOf st r) :
    stepP st (Op.leave s) = (st, []) := by
  have hInv := reachable_inv hre
  have hm : st.userRoomMap s = none := by
    cases hmm : st.userRoomMap s with
    | none => rfl
    | some r => exact absurd (hInv.mapMem s r hmm) (hns r)
  rw [stepP, leaveRoom_none hm]

theorem C10_leave_noop_witness :
    stepP stA (Op.leave "B") = (stA, []) :=
  C10_leave_noop stA reach_stA "B" (fun r => by
    by_cases hr : r = "R"
    · subst hr
      decide
    · show "B" ∉ membersOf stA r
      rw [membersOf]
      have hnone : stA.roomUsers r = none := by
        show fupdate (fun _ => none) "R" (some ["A"]) r = none
        rw [fupdate_ne _ _ _ _ hr]
      rw [hnone]
      simp)

/-- C8: every analytics entry point is wrapped in `try/catch` and so is
embedded as a total function; whichever store primitives fail (any oracle)
and whatever the store holds, each room-lifecycle and relay operation
produces exactly the registry state and client deliveries of the pure
handler — store failures never reach a client. -/
theorem C8_analytics_failure_contained (o : Oracle) (now : Nat)
    (st : ServerState) (db : ADB) (op : Op) :
    (stepFull o now st db op).1.1 = (stepP st op).1 ∧
    (stepFull o now st db op).2 = (stepP st op).2 := by
  cases op with
  | create s r => exact ⟨rfl, rfl⟩
  | join s r =>
    simp only [stepFull, stepP, joinRoom]
    split
    · split
      · exact ⟨rfl, rfl⟩
      · exact ⟨rfl, rfl⟩
    · exact ⟨rfl, rfl⟩
  | leave s =>
    simp only [stepFull, stepP, leaveRoom]
    split
    · exact ⟨rfl, rfl⟩
    · split
      · split
        · exact ⟨rfl, rfl⟩
        · exact ⟨rfl, rfl⟩
      · exact ⟨rfl, rfl⟩
  | disconnect s =>
    cases hm : st.userRoomMap s with
    | none =>
      simp [stepFull, stepP, disconnectOp, disconnecting, disconnectCleanup, hm]
    | some r =>
      cases hru : st.roomUsers r with
      | none =>
        simp [stepFull, stepP, disconnectOp, disconnecting, disconnectCleanup, hm, hru]
      | some m =>
        by_cases hms : (setRemove (membersOf st r) s).length = 0
        · simp [stepFull, stepP, disconnectOp, disconnecting, disconnectCleanup,
            hm, hru, hms, deleteRoom]
        · simp [stepFull, stepP, disconnectOp, disconnecting, disconnectCleanup,
            hm, hru, hms]
  | relay s r k p => exact ⟨rfl, rfl⟩

/-- C6: over any sequence of leave/disconnect-driven analytics calls, at most
one `closed` event is recorded per room per calendar day, and the stored
`roomsCompleted` counter of each day equals the number of closures recorded
that day (so it is bumped at most once per room per day).  Concretely, an
explicit leave at t=5 followed by a redundant disconnect at t=9 the same day
records exactly one closure. -/
theorem C6_room_closed_dedup (calls : List (Nat × ACall)) (r : String) (d : Nat) :
    closedCount (runACalls calls emptyADB) r d ≤ 1 ∧
    roomsCompletedOn (runACalls calls emptyADB) d =
      closedOnDay (runACalls calls emptyADB) d ∧
    closedCount (runACalls [(5, ACall.aUserLeft "Q" "u" 0),
        (9, ACall.aUserLeft "Q" "v" 0)] emptyADB) "Q" 0 = 1 := by
  have h := closureInv_runACalls calls closureInv_empty
  exact ⟨h.1 r d, h.2 d, by decide⟩

/-- C9: `incrementDailyStat` is one atomic increment-or-create store action
on the day-keyed document (no read-then-write), so any schedule of N
concurrent increments by 1 serializes to the N-fold composition and yields
exactly initial+N — from an empty store, exactly N. -/
theorem C9_daily_increment_exact (n now : Nat) (f : DailyField) (db : ADB) :
    dailyCount (seqApply (incrementDailyStat noFail now f 1) n db) (dayOf now) f =
      dailyCount db (dayOf now) f + n ∧
    dailyCount (seqApply (incrementDailyStat noFail now f 1) n emptyADB) (dayOf now) f = n := by
  refine ⟨dailyCount_seq now f n db, ?_⟩
  rw [dailyCount_seq now f n emptyADB]
  have hz : dailyCount emptyADB (dayOf now) f = 0 := rfl
  rw [hz, Nat.zero_add]

/-- C2(counterexample): two concurrent hourly-bucket increments for the same
(day, hour, field) can produce a stored value of 1, not 2: the handler is a
`findOne`/mutate/`save` sequence, and in the schedule where both reads
precede both write-backs the second `save` overwrites the first increment. -/
theorem C2_hourly_concurrent_lost_update :
    hourVal (hourlyRaceResult 0 HourField.connections) 0 HourField.connections = 1 ∧
    hourVal (hourlyRaceResult 0 HourField.connections) 0 HourField.connections ≠ 2 := by
  decide

/-- C2(amended): N sequential (non-overlapping) hourly-bucket increments for
one (day, hour, field) yield exactly N, but the update is a read-document /
mutate-in-memory / write-back sequence, so an overlapping schedule can lose
updates: interleaving two increments read-read-write-write leaves 1. -/
theorem C2_hourly_sequential_exact_concurrent_lossy (n now : Nat) (f : HourField) :
    hourVal (seqApply (incrementHourlyStat noFail now f 1) n emptyADB) now f = n ∧
    hourVal (hourlyRaceResult now f) now f = 1 := by
  refine ⟨?_, hourlyRace_eq_one now f⟩
  rw [hourVal_seq now f n emptyADB]
  have hz : hourVal emptyADB now f = 0 := rfl
  rw [hz, Nat.zero_add]

end Swoosh
